import Mathlib

/-!
Verification of the s-ray reactive template engine core against its
natural-language specification.

The development shallowly embeds the four subsystems the claims are about:

* the task scheduler (`scheduler.ts`);
* the signal graph: `Ref`, `computed`, `watch` (`reactive.ts`);
* the template binding engine: keyed list reconciliation, `unmount`,
  hydration (`html.ts`, the newer revision with hydration support);
* the SSR serializer (`ssr/htmlSSR.ts`).

JavaScript `Set` objects are embedded following the ECMA-262 `[[SetData]]`
semantics: an insertion-ordered list of slots in which `delete` empties a
slot in place (so that an iteration in progress skips it) and `add` appends
a new slot when the element is not present.  `Set.prototype.forEach` walks
the slot list by index and therefore also visits slots appended during the
iteration.  JavaScript `Map` objects are embedded as insertion-ordered
association lists with unique keys.

All loops of the source are embedded fuel-indexed; a `Bool` component of the
result records whether the loop finished within the given fuel.
-/

namespace SRay

/-! ### Scheduler (`scheduler.ts`)

`Priority.Immediate` tasks are run synchronously by `queueTask` and never
enter a bucket, so the bucket model only carries the three queued priority
classes.  Tasks are identified by `Nat` ids; what a task does to the
scheduler when it runs (its `queueTask` calls, in order) is supplied by an
environment `env : Nat → List (Nat × Priority)`. -/

inductive Priority where
  | high
  | middle
  | low
deriving DecidableEq, Repr, Fintype

/-- One ECMA-262 `[[SetData]]` slot list: `none` is an emptied slot. -/
abbrev Bucket := List (Option Nat)

/-- The elements currently in the set (non-emptied slots, in order). -/
def Bucket.members (b : Bucket) : List Nat := b.filterMap id

/-- `Set.prototype.delete`: empty every slot holding `t` in place. -/
def Bucket.del (b : Bucket) (t : Nat) : Bucket :=
  b.map (fun s => if s = some t then none else s)

/-- `Set.prototype.add`: append a slot when `t` is not already present. -/
def Bucket.add (b : Bucket) (t : Nat) : Bucket :=
  if some t ∈ b then b else b ++ [some t]

/-- The scheduler module state: the three buckets and whether a flush
microtask is currently scheduled (`currentPromise !== null`). -/
structure Sched where
  high : Bucket
  middle : Bucket
  low : Bucket
  pending : Bool
deriving DecidableEq, Repr

def Sched.bucket (s : Sched) : Priority → Bucket
  | .high => s.high
  | .middle => s.middle
  | .low => s.low

def Sched.setBucket (s : Sched) : Priority → Bucket → Sched
  | .high, b => { s with high := b }
  | .middle, b => { s with middle := b }
  | .low, b => { s with low := b }

/-- `queueTask(task, priority)` for a non-immediate priority: `delete` then
`add` on the priority's set (the "renew" operation), and make sure a flush
is scheduled. -/
def queueTask (s : Sched) (t : Nat) (p : Priority) : Sched :=
  { s.setBucket p (((s.bucket p).del t).add t) with pending := true }

/-- State threaded through a flush: the scheduler plus the ids of the tasks
executed so far, in execution order. -/
structure FlushSt where
  sched : Sched
  log : List Nat
deriving DecidableEq, Repr

/-- Running one task: perform its `queueTask` calls and record it in the
execution log. -/
def runTask (env : Nat → List (Nat × Priority)) (st : FlushSt) (t : Nat) : FlushSt :=
  { sched := (env t).foldl (fun s uq => queueTask s uq.1 uq.2) st.sched
    log := st.log ++ [t] }

/-- `tasks[p].forEach(task => task())`: walk the slot list of bucket `p` by
index from `i`, running each non-emptied slot; slots appended during the
walk are visited too.  Returns the state, the list of task ids run by this
walk, and whether the walk reached the end of the (possibly grown) list
within the fuel. -/
def drain (env : Nat → List (Nat × Priority)) (p : Priority) :
    Nat → Nat → FlushSt → FlushSt × List Nat × Bool
  | 0, _, st => (st, [], false)
  | fuel + 1, i, st =>
    match (st.sched.bucket p)[i]? with
    | none => (st, [], true)
    | some none => drain env p fuel (i + 1) st
    | some (some t) =>
      let out := drain env p fuel (i + 1) (runTask env st t)
      (out.1, t :: out.2.1, out.2.2)

/-- `tasks[p].clear()`. -/
def clearBucket (st : FlushSt) (p : Priority) : FlushSt :=
  { st with sched := st.sched.setBucket p [] }

/-- `flushTasks()`: drain and clear High, then Middle, then Low, then reset
`currentPromise`.  Returns the per-phase execution lists and whether the
flush ran to completion within the fuel. -/
def flushTasks (env : Nat → List (Nat × Priority)) (fuel : Nat) (st : FlushSt) :
    FlushSt × (List Nat × List Nat × List Nat) × Bool :=
  let oH := drain env .high fuel 0 st
  if oH.2.2 then
    let oM := drain env .middle fuel 0 (clearBucket oH.1 .high)
    if oM.2.2 then
      let oL := drain env .low fuel 0 (clearBucket oM.1 .middle)
      if oL.2.2 then
        let stL := clearBucket oL.1 .low
        ({ stL with sched := { stL.sched with pending := false } },
          (oH.2.1, oM.2.1, oL.2.1), true)
      else (oL.1, (oH.2.1, oM.2.1, oL.2.1), false)
    else (oM.1, (oH.2.1, oM.2.1, []), false)
  else (oH.1, (oH.2.1, [], []), false)

/-- Execution list of the flush phase that drains bucket `p`. -/
def phaseExec (es : List Nat × List Nat × List Nat) : Priority → List Nat
  | .high => es.1
  | .middle => es.2.1
  | .low => es.2.2

example :
    (flushTasks (fun _ => []) 1
      ⟨⟨[some 3], [some 1, some 2], [some 0], true⟩, []⟩).2.2 = false := by
  decide

example :
    (flushTasks (fun _ => []) 4
      ⟨⟨[some 3], [some 1, some 2], [some 0], true⟩, []⟩).1.log
      = [3, 1, 2, 0] := by decide

/-! #### Basic bucket lemmas -/

theorem Bucket.mem_members {b : Bucket} {t : Nat} : t ∈ b.members ↔ some t ∈ b := by
  simp only [Bucket.members, List.mem_filterMap, id]
  constructor
  · rintro ⟨x, hx, rfl⟩; exact hx
  · intro h; exact ⟨some t, h, rfl⟩

theorem Bucket.not_some_mem_del (b : Bucket) (t : Nat) : some t ∉ b.del t := by
  simp only [Bucket.del, List.mem_map]
  rintro ⟨s, -, hs⟩
  by_cases h : s = some t <;> simp [h] at hs

theorem Bucket.mem_del_of_mem {b : Bucket} {t u : Nat} (hne : t ≠ u)
    (h : some t ∈ b) : some t ∈ b.del u := by
  simp only [Bucket.del, List.mem_map]
  exact ⟨some t, h, by simp [hne]⟩

theorem Bucket.mem_add_of_mem {b : Bucket} {t u : Nat} (h : some t ∈ b) :
    some t ∈ b.add u := by
  unfold Bucket.add
  split <;> simp [h]

theorem Bucket.self_mem_del_add (b : Bucket) (t : Nat) :
    some t ∈ (b.del t).add t := by
  unfold Bucket.add
  split
  · assumption
  · simp

theorem Bucket.mem_del_add_of_mem {b : Bucket} {t u : Nat} (h : some t ∈ b) :
    some t ∈ (b.del u).add u := by
  by_cases hne : t = u
  · subst hne; exact b.self_mem_del_add t
  · exact Bucket.mem_add_of_mem (Bucket.mem_del_of_mem hne h)

theorem Bucket.mem_of_mem_del {b : Bucket} {t u : Nat} (h : some t ∈ b.del u) :
    some t ∈ b := by
  simp only [Bucket.del, List.mem_map] at h
  obtain ⟨s, hs, hst⟩ := h
  by_cases hsu : s = some t
  · subst hsu; exact hs
  · by_cases h2 : s = some u
    · simp [h2] at hst
    · simp [h2] at hst
      simp_all

theorem Bucket.mem_del_add_iff {b : Bucket} {t u : Nat} :
    some t ∈ (b.del u).add u ↔ some t ∈ b ∨ t = u := by
  constructor
  · intro h
    by_cases hne : t = u
    · exact Or.inr hne
    · unfold Bucket.add at h
      have : some t ∈ b.del u := by
        split at h
        · exact h
        · rcases List.mem_append.1 h with h | h
          · exact h
          · simp at h; exact absurd h hne
      exact Or.inl (Bucket.mem_of_mem_del this)
  · rintro (h | rfl)
    · exact Bucket.mem_del_add_of_mem h
    · exact b.self_mem_del_add t

theorem Sched.bucket_setBucket (s : Sched) (p q : Priority) (b : Bucket) :
    ((s.setBucket p b).bucket q) = if q = p then b else s.bucket q := by
  cases p <;> cases q <;> simp [Sched.setBucket, Sched.bucket]

theorem bucket_queueTask (s : Sched) (t : Nat) (p q : Priority) :
    (queueTask s t p).bucket q =
      if q = p then ((s.bucket p).del t).add t else s.bucket q := by
  unfold queueTask
  have : ∀ (s' : Sched) (b : Bucket),
      ({ s'.setBucket p b with pending := true } : Sched).bucket q
        = (s'.setBucket p b).bucket q := by
    intro s' b; cases p <;> cases q <;> simp [Sched.setBucket, Sched.bucket]
  rw [this, Sched.bucket_setBucket]

theorem mem_bucket_queueTask_of_mem {s : Sched} {t u : Nat} {p q : Priority}
    (h : some t ∈ s.bucket q) : some t ∈ (queueTask s u p).bucket q := by
  rw [bucket_queueTask]
  split
  · next hqp => subst hqp; exact Bucket.mem_del_add_of_mem h
  · exact h

theorem self_mem_bucket_queueTask (s : Sched) (t : Nat) (p : Priority) :
    some t ∈ (queueTask s t p).bucket p := by
  rw [bucket_queueTask]; simp [Bucket.self_mem_del_add]

/-- `foldl queueTask`: existing set members survive a task body's sequence of
`queueTask` calls. -/
theorem mem_bucket_foldl_of_mem {l : List (Nat × Priority)} {s : Sched} {t : Nat}
    {q : Priority} (h : some t ∈ s.bucket q) :
    some t ∈ (l.foldl (fun s uq => queueTask s uq.1 uq.2) s).bucket q := by
  induction l generalizing s with
  | nil => exact h
  | cons uq rest ih => exact ih (mem_bucket_queueTask_of_mem h)

/-- `foldl queueTask`: each task queued by a task body ends up in its set. -/
theorem mem_bucket_foldl_of_call {l : List (Nat × Priority)} {s : Sched} {t : Nat}
    {q : Priority} (h : (t, q) ∈ l) :
    some t ∈ (l.foldl (fun s uq => queueTask s uq.1 uq.2) s).bucket q := by
  induction l generalizing s with
  | nil => cases h
  | cons uq rest ih =>
    rw [List.foldl_cons]
    rcases List.mem_cons.1 h with h | h
    · subst h
      exact mem_bucket_foldl_of_mem (self_mem_bucket_queueTask s t q)
    · exact ih h

theorem mem_bucket_runTask_of_mem {env : Nat → List (Nat × Priority)} {st : FlushSt}
    {t u : Nat} {q : Priority} (h : some t ∈ st.sched.bucket q) :
    some t ∈ (runTask env st u).sched.bucket q :=
  mem_bucket_foldl_of_mem h

theorem mem_bucket_drain_of_mem {env : Nat → List (Nat × Priority)} {p : Priority} :
    ∀ {fuel i : Nat} {st : FlushSt} {t : Nat} {q : Priority},
      some t ∈ st.sched.bucket q →
      some t ∈ (drain env p fuel i st).1.sched.bucket q := by
  intro fuel
  induction fuel with
  | zero => intro i st t q h; simpa [drain] using h
  | succ fuel ih =>
    intro i st t q h
    rw [drain]
    match hslot : (st.sched.bucket p)[i]? with
    | none => simpa using h
    | some none => simpa using ih h
    | some (some u) => simpa using ih (mem_bucket_runTask_of_mem h)

/-! #### Slot evolution

During a single flush, a bucket's slot list only ever grows at the end, and
an existing slot is only ever emptied in place (`delete`) — it is never
overwritten with a different task.  This is the ECMA-262 `[[SetData]]`
behaviour that makes the `forEach` index walk well defined. -/

def Bucket.Evol (b b' : Bucket) : Prop :=
  b.length ≤ b'.length ∧ ∀ i, i < b.length → b'[i]? = b[i]? ∨ b'[i]? = some none

theorem Bucket.Evol.refl (b : Bucket) : Bucket.Evol b b :=
  ⟨le_rfl, fun _ _ => Or.inl rfl⟩

theorem Bucket.Evol.trans {a b c : Bucket} (h1 : Bucket.Evol a b)
    (h2 : Bucket.Evol b c) : Bucket.Evol a c := by
  refine ⟨h1.1.trans h2.1, fun i hi => ?_⟩
  rcases h2.2 i (lt_of_lt_of_le hi h1.1) with h' | h'
  · rcases h1.2 i hi with h | h
    · exact Or.inl (h'.trans h)
    · exact Or.inr (h'.trans h)
  · exact Or.inr h'

theorem Bucket.evol_del (b : Bucket) (t : Nat) : Bucket.Evol b (b.del t) := by
  refine ⟨by simp [Bucket.del], fun i hi => ?_⟩
  rw [List.getElem?_eq_getElem hi]
  have : (b.del t)[i]? = some (if b[i] = some t then none else b[i]) := by
    simp [Bucket.del, List.getElem?_eq_getElem, hi]
  rw [this]
  by_cases h : b[i] = some t <;> simp [h]

theorem Bucket.evol_add (b : Bucket) (t : Nat) : Bucket.Evol b (b.add t) := by
  unfold Bucket.add
  split
  · exact Bucket.Evol.refl b
  · exact ⟨by simp, fun i hi => Or.inl (by rw [List.getElem?_append, if_pos hi])⟩

theorem evol_bucket_queueTask (s : Sched) (t : Nat) (p q : Priority) :
    Bucket.Evol (s.bucket q) ((queueTask s t p).bucket q) := by
  rw [bucket_queueTask]
  split
  · next h =>
    subst h
    exact (Bucket.evol_del _ t).trans (Bucket.evol_add _ t)
  · exact Bucket.Evol.refl _

theorem evol_bucket_foldl (l : List (Nat × Priority)) (s : Sched) (q : Priority) :
    Bucket.Evol (s.bucket q)
      ((l.foldl (fun s uq => queueTask s uq.1 uq.2) s).bucket q) := by
  induction l generalizing s with
  | nil => exact Bucket.Evol.refl _
  | cons uq rest ih =>
    rw [List.foldl_cons]
    exact (evol_bucket_queueTask s uq.1 uq.2 q).trans (ih _)

theorem evol_bucket_runTask (env : Nat → List (Nat × Priority)) (st : FlushSt)
    (t : Nat) (q : Priority) :
    Bucket.Evol (st.sched.bucket q) ((runTask env st t).sched.bucket q) :=
  evol_bucket_foldl _ _ q

theorem drain_succ_none {env : Nat → List (Nat × Priority)} {p : Priority}
    {fuel i : Nat} {st : FlushSt} (h : (st.sched.bucket p)[i]? = none) :
    drain env p (fuel + 1) i st = (st, [], true) := by
  rw [drain, h]

theorem drain_succ_skip {env : Nat → List (Nat × Priority)} {p : Priority}
    {fuel i : Nat} {st : FlushSt} (h : (st.sched.bucket p)[i]? = some none) :
    drain env p (fuel + 1) i st = drain env p fuel (i + 1) st := by
  rw [drain, h]

theorem drain_succ_run {env : Nat → List (Nat × Priority)} {p : Priority}
    {fuel i : Nat} {st : FlushSt} {t : Nat}
    (h : (st.sched.bucket p)[i]? = some (some t)) :
    drain env p (fuel + 1) i st =
      ((drain env p fuel (i + 1) (runTask env st t)).1,
        t :: (drain env p fuel (i + 1) (runTask env st t)).2.1,
        (drain env p fuel (i + 1) (runTask env st t)).2.2) := by
  rw [drain, h]

theorem evol_bucket_drain (env : Nat → List (Nat × Priority)) (p : Priority) :
    ∀ (fuel i : Nat) (st : FlushSt) (q : Priority),
      Bucket.Evol (st.sched.bucket q) ((drain env p fuel i st).1.sched.bucket q) := by
  intro fuel
  induction fuel with
  | zero => intro i st q; exact Bucket.Evol.refl _
  | succ fuel ih =>
    intro i st q
    match hslot : (st.sched.bucket p)[i]? with
    | none => rw [drain_succ_none hslot]; exact Bucket.Evol.refl _
    | some none => rw [drain_succ_skip hslot]; exact ih _ st q
    | some (some t) =>
      rw [drain_succ_run hslot]
      exact (evol_bucket_runTask env st t q).trans (ih _ _ q)

/-- The tasks a drain executes are exactly what it appends to the log. -/
theorem drain_log (env : Nat → List (Nat × Priority)) (p : Priority) :
    ∀ (fuel i : Nat) (st : FlushSt),
      (drain env p fuel i st).1.log = st.log ++ (drain env p fuel i st).2.1 := by
  intro fuel
  induction fuel with
  | zero => intro i st; simp [drain]
  | succ fuel ih =>
    intro i st
    match hslot : (st.sched.bucket p)[i]? with
    | none => rw [drain_succ_none hslot]; simp
    | some none => rw [drain_succ_skip hslot]; exact ih _ st
    | some (some t) =>
      rw [drain_succ_run hslot]
      have h2 := ih (i + 1) (runTask env st t)
      simp only [runTask] at h2 ⊢
      rw [h2]
      simp

/-- A slot of the final bucket that still holds a task at an index the walk
has covered was processed with that very task in it: a slot is never
overwritten, so every task left in the walked region was executed. -/
theorem drain_slot_exec (env : Nat → List (Nat × Priority)) (p : Priority) :
    ∀ (fuel i : Nat) (st : FlushSt),
      (drain env p fuel i st).2.2 = true →
      ∀ (t j : Nat), i ≤ j →
        ((drain env p fuel i st).1.sched.bucket p)[j]? = some (some t) →
        t ∈ (drain env p fuel i st).2.1 := by
  intro fuel
  induction fuel with
  | zero => intro i st h; simp [drain] at h
  | succ fuel ih =>
    intro i st hok t j hij hslot'
    match hslot : (st.sched.bucket p)[i]? with
    | none =>
      rw [drain_succ_none hslot] at hok hslot'
      have hlen : (st.sched.bucket p).length ≤ i := by
        by_contra hlt
        push_neg at hlt
        rw [List.getElem?_eq_getElem hlt] at hslot
        cases hslot
      have : j < (st.sched.bucket p).length := by
        have := List.getElem?_eq_some.1 hslot'
        exact this.1
      omega
    | some none =>
      rw [drain_succ_skip hslot] at hok hslot' ⊢
      rcases Nat.eq_or_lt_of_le hij with rfl | hij'
      · -- the final slot at `i` can only be the emptied slot it was
        have hev := evol_bucket_drain env p fuel (i + 1) st p
        have hi : i < (st.sched.bucket p).length := by
          have := List.getElem?_eq_some.1 hslot
          exact this.1
        rcases hev.2 i hi with h | h <;> rw [h] at hslot' <;> simp_all
      · exact ih (i + 1) st hok t j hij' hslot'
    | some (some u) =>
      rw [drain_succ_run hslot] at hok hslot' ⊢
      simp only at hok hslot' ⊢
      rcases Nat.eq_or_lt_of_le hij with rfl | hij'
      · -- the slot at `i` held `u` when processed; afterwards it is `u` or emptied
        have hi : i < (st.sched.bucket p).length := by
          have := List.getElem?_eq_some.1 hslot
          exact this.1
        have hev1 := evol_bucket_runTask env st u p
        have hev2 := evol_bucket_drain env p fuel (i + 1) (runTask env st u) p
        have hev := hev1.trans hev2
        rcases hev.2 i hi with h | h
        · rw [h, hslot] at hslot'
          cases hslot'
          exact List.mem_cons_self _ _
        · rw [h] at hslot'
          cases hslot'
      · exact List.mem_cons_of_mem _ (ih (i + 1) _ hok t j hij' hslot')

/-- Every member of the bucket when its drain starts is executed by a
completed drain. -/
theorem drain_members_exec (env : Nat → List (Nat × Priority)) (p : Priority)
    (fuel : Nat) (st : FlushSt) (hok : (drain env p fuel 0 st).2.2 = true)
    {t : Nat} (hmem : some t ∈ st.sched.bucket p) :
    t ∈ (drain env p fuel 0 st).2.1 := by
  have hfin : some t ∈ (drain env p fuel 0 st).1.sched.bucket p :=
    mem_bucket_drain_of_mem hmem
  obtain ⟨j, hj⟩ := List.mem_iff_getElem?.1 hfin
  exact drain_slot_exec env p fuel 0 st hok t j (Nat.zero_le j) hj

/-- Each `queueTask` call made by an executed task leaves the queued task in
its bucket at the end of the drain (membership is only moved, never lost,
by later renews). -/
theorem drain_enq_mem (env : Nat → List (Nat × Priority)) (p : Priority) :
    ∀ (fuel i : Nat) (st : FlushSt),
      ∀ t' ∈ (drain env p fuel i st).2.1, ∀ uq ∈ env t',
        some uq.1 ∈ (drain env p fuel i st).1.sched.bucket uq.2 := by
  intro fuel
  induction fuel with
  | zero => intro i st t' h; simp [drain] at h
  | succ fuel ih =>
    intro i st t' ht' uq huq
    match hslot : (st.sched.bucket p)[i]? with
    | none => rw [drain_succ_none hslot] at ht'; cases ht'
    | some none =>
      rw [drain_succ_skip hslot] at ht' ⊢
      exact ih _ st t' ht' uq huq
    | some (some u) =>
      rw [drain_succ_run hslot] at ht' ⊢
      simp only at ht' ⊢
      rcases List.mem_cons.1 ht' with rfl | ht''
      · exact mem_bucket_drain_of_mem (mem_bucket_foldl_of_call huq)
      · exact ih _ _ t' ht'' uq huq

/-! #### Frame lemmas: a bucket no executed task queues into is untouched -/

theorem bucket_queueTask_ne {s : Sched} {t : Nat} {p q : Priority} (h : q ≠ p) :
    (queueTask s t p).bucket q = s.bucket q := by
  rw [bucket_queueTask, if_neg h]

theorem bucket_foldl_frame {l : List (Nat × Priority)} {s : Sched} {q : Priority}
    (h : ∀ uq ∈ l, uq.2 ≠ q) :
    (l.foldl (fun s uq => queueTask s uq.1 uq.2) s).bucket q = s.bucket q := by
  induction l generalizing s with
  | nil => rfl
  | cons uq rest ih =>
    rw [List.foldl_cons, ih (fun x hx => h x (List.mem_cons_of_mem _ hx)),
      bucket_queueTask_ne]
    exact fun hq => h uq (List.mem_cons_self _ _) hq.symm

theorem drain_frame (env : Nat → List (Nat × Priority)) (p : Priority) :
    ∀ (fuel i : Nat) (st : FlushSt) (q : Priority), q ≠ p →
      (∀ t' ∈ (drain env p fuel i st).2.1, ∀ uq ∈ env t', uq.2 ≠ q) →
      (drain env p fuel i st).1.sched.bucket q = st.sched.bucket q := by
  intro fuel
  induction fuel with
  | zero => intro i st q _ _; rfl
  | succ fuel ih =>
    intro i st q hq henq
    match hslot : (st.sched.bucket p)[i]? with
    | none => rw [drain_succ_none hslot]
    | some none =>
      rw [drain_succ_skip hslot] at henq ⊢
      exact ih _ st q hq henq
    | some (some u) =>
      rw [drain_succ_run hslot] at henq ⊢
      simp only at henq ⊢
      have hu : ∀ uq ∈ env u, uq.2 ≠ q :=
        henq u (List.mem_cons_self _ _)
      have hrest : ∀ t' ∈ (drain env p fuel (i + 1) (runTask env st u)).2.1,
          ∀ uq ∈ env t', uq.2 ≠ q :=
        fun t' ht' => henq t' (List.mem_cons_of_mem _ ht')
      rw [ih _ _ q hq hrest]
      exact bucket_foldl_frame hu

/-! #### Counting executions -/

theorem Bucket.count_del_ne {b : Bucket} {t u : Nat} (h : t ≠ u) :
    (b.del u).count (some t) = b.count (some t) := by
  induction b with
  | nil => rfl
  | cons s rest ih =>
    simp only [Bucket.del, List.map_cons, List.count_cons] at *
    rw [ih]
    congr 1
    by_cases hs : s = some u
    · subst hs; simp [h, Ne.symm h]
    · simp [hs]

theorem Bucket.count_add_ne {b : Bucket} {t u : Nat} (h : t ≠ u) :
    (b.add u).count (some t) = b.count (some t) := by
  unfold Bucket.add
  split
  · rfl
  · simp [h, Ne.symm h]

theorem count_bucket_queueTask_ne {s : Sched} {t w : Nat} {p q : Priority}
    (h : w ≠ t) :
    ((queueTask s w p).bucket q).count (some t) = (s.bucket q).count (some t) := by
  rw [bucket_queueTask]
  split
  · next hqp =>
    subst hqp
    rw [Bucket.count_add_ne (Ne.symm h), Bucket.count_del_ne (Ne.symm h)]
  · rfl

theorem count_bucket_foldl_ne {l : List (Nat × Priority)} {s : Sched} {t : Nat}
    {q : Priority} (h : ∀ uq ∈ l, uq.1 ≠ t) :
    ((l.foldl (fun s uq => queueTask s uq.1 uq.2) s).bucket q).count (some t)
      = (s.bucket q).count (some t) := by
  induction l generalizing s with
  | nil => rfl
  | cons uq rest ih =>
    rw [List.foldl_cons, ih (fun x hx => h x (List.mem_cons_of_mem _ hx)),
      count_bucket_queueTask_ne (h uq (List.mem_cons_self _ _))]

theorem length_bucket_queueTask_le (s : Sched) (w : Nat) (p q : Priority) :
    (s.bucket q).length ≤ ((queueTask s w p).bucket q).length := by
  rw [bucket_queueTask]
  split
  · next hqp =>
    subst hqp
    unfold Bucket.add
    split <;> simp [Bucket.del]
  · exact le_rfl

theorem length_bucket_foldl_le (l : List (Nat × Priority)) (s : Sched)
    (q : Priority) :
    (s.bucket q).length ≤
      ((l.foldl (fun s uq => queueTask s uq.1 uq.2) s).bucket q).length := by
  induction l generalizing s with
  | nil => exact le_rfl
  | cons uq rest ih =>
    rw [List.foldl_cons]
    exact (length_bucket_queueTask_le s uq.1 uq.2 q).trans (ih _)

theorem Bucket.count_drop_del {b : Bucket} {t w : Nat} (h : t ≠ w) :
    ∀ j, ((b.del w).drop j).count (some t) = (b.drop j).count (some t) := by
  induction b with
  | nil => intro j; rfl
  | cons s rest ih =>
    intro j
    cases j with
    | zero =>
      simpa using Bucket.count_del_ne h
    | succ j =>
      simpa [Bucket.del] using ih j

theorem count_drop_queueTask {s : Sched} {t w : Nat} {p q : Priority} {j : Nat}
    (hw : w ≠ t) (hj : j ≤ (s.bucket q).length) :
    (((queueTask s w p).bucket q).drop j).count (some t)
      = ((s.bucket q).drop j).count (some t) := by
  rw [bucket_queueTask]
  split
  · next hqp =>
    subst hqp
    unfold Bucket.add
    split
    · exact Bucket.count_drop_del (Ne.symm hw) j
    · rw [List.drop_append_of_le_length (by simpa [Bucket.del] using hj),
        List.count_append, Bucket.count_drop_del (Ne.symm hw) j]
      simp [hw, Ne.symm hw]
  · rfl

theorem count_drop_foldl {l : List (Nat × Priority)} {s : Sched} {t : Nat}
    {q : Priority} {j : Nat} (h : ∀ uq ∈ l, uq.1 ≠ t)
    (hj : j ≤ (s.bucket q).length) :
    (((l.foldl (fun s uq => queueTask s uq.1 uq.2) s).bucket q).drop j).count (some t)
      = ((s.bucket q).drop j).count (some t) := by
  induction l generalizing s with
  | nil => rfl
  | cons uq rest ih =>
    rw [List.foldl_cons,
      ih (fun x hx => h x (List.mem_cons_of_mem _ hx))
        (hj.trans (length_bucket_queueTask_le s uq.1 uq.2 q)),
      count_drop_queueTask (h uq (List.mem_cons_self _ _)) hj]

/-- A completed drain during which no executed task re-queues `t` runs `t`
exactly as many times as `t` had slots in the not-yet-walked region. -/
theorem drain_count (env : Nat → List (Nat × Priority)) (p : Priority) (t : Nat) :
    ∀ (fuel i : Nat) (st : FlushSt),
      (drain env p fuel i st).2.2 = true →
      (∀ t' ∈ (drain env p fuel i st).2.1, ∀ uq ∈ env t', uq.1 ≠ t) →
      (drain env p fuel i st).2.1.count t
        = (((st.sched.bucket p).drop i).count (some t)) := by
  intro fuel
  induction fuel with
  | zero => intro i st h; simp [drain] at h
  | succ fuel ih =>
    intro i st hok henq
    match hslot : (st.sched.bucket p)[i]? with
    | none =>
      rw [drain_succ_none hslot]
      have : (st.sched.bucket p).length ≤ i := List.getElem?_eq_none_iff.1 hslot
      rw [List.drop_eq_nil_of_le this]
      rfl
    | some none =>
      rw [drain_succ_skip hslot] at hok henq ⊢
      have hi : i < (st.sched.bucket p).length :=
        (List.getElem?_eq_some.1 hslot).1
      rw [ih _ st hok henq, List.drop_eq_getElem_cons hi]
      have : (st.sched.bucket p)[i] = none := by
        have := List.getElem?_eq_some.1 hslot
        exact this.2
      simp [this]
    | some (some u) =>
      rw [drain_succ_run hslot] at hok henq ⊢
      simp only at hok henq ⊢
      have hi : i < (st.sched.bucket p).length :=
        (List.getElem?_eq_some.1 hslot).1
      have hgetu : (st.sched.bucket p)[i] = some u :=
        (List.getElem?_eq_some.1 hslot).2
      have hu : ∀ uq ∈ env u, uq.1 ≠ t := henq u (List.mem_cons_self _ _)
      have hrest : ∀ t' ∈ (drain env p fuel (i + 1) (runTask env st u)).2.1,
          ∀ uq ∈ env t', uq.1 ≠ t :=
        fun t' ht' => henq t' (List.mem_cons_of_mem _ ht')
      have hcount := ih (i + 1) (runTask env st u) hok hrest
      have hdrop : (((runTask env st u).sched.bucket p).drop (i + 1)).count (some t)
          = (((st.sched.bucket p)).drop (i + 1)).count (some t) := by
        exact count_drop_foldl hu (by omega)
      rw [List.count_cons, hcount, hdrop, List.drop_eq_getElem_cons hi]
      simp [hgetu, List.count_cons]

/-! #### Where executed tasks can come from -/

theorem mem_bucket_queueTask_src {s : Sched} {t w : Nat} {p q : Priority}
    (h : some t ∈ (queueTask s w p).bucket q) :
    some t ∈ s.bucket q ∨ (t = w ∧ q = p) := by
  rw [bucket_queueTask] at h
  split at h
  · next hqp =>
    subst hqp
    rcases Bucket.mem_del_add_iff.1 h with h | h
    · exact Or.inl h
    · exact Or.inr ⟨h, rfl⟩
  · exact Or.inl h

theorem mem_bucket_foldl_src {l : List (Nat × Priority)} {s : Sched} {t : Nat}
    {q : Priority}
    (h : some t ∈ (l.foldl (fun s uq => queueTask s uq.1 uq.2) s).bucket q) :
    some t ∈ s.bucket q ∨ (t, q) ∈ l := by
  induction l generalizing s with
  | nil => exact Or.inl h
  | cons uq rest ih =>
    rw [List.foldl_cons] at h
    rcases ih h with h' | h'
    · rcases mem_bucket_queueTask_src h' with h'' | ⟨rfl, rfl⟩
      · exact Or.inl h''
      · exact Or.inr (List.mem_cons_self _ _)
    · exact Or.inr (List.mem_cons_of_mem _ h')

theorem mem_bucket_drain_src (env : Nat → List (Nat × Priority)) (p : Priority) :
    ∀ (fuel i : Nat) (st : FlushSt) {t : Nat} {q : Priority},
      some t ∈ (drain env p fuel i st).1.sched.bucket q →
      some t ∈ st.sched.bucket q ∨ ∃ t', (t, q) ∈ env t' := by
  intro fuel
  induction fuel with
  | zero => intro i st t q h; exact Or.inl h
  | succ fuel ih =>
    intro i st t q h
    match hslot : (st.sched.bucket p)[i]? with
    | none => rw [drain_succ_none hslot] at h; exact Or.inl h
    | some none =>
      rw [drain_succ_skip hslot] at h
      exact ih _ st h
    | some (some u) =>
      rw [drain_succ_run hslot] at h
      simp only at h
      rcases ih _ _ h with h' | h'
      · rcases mem_bucket_foldl_src h' with h'' | h''
        · exact Or.inl h''
        · exact Or.inr ⟨u, h''⟩
      · exact Or.inr h'

/-- A drain executes only tasks that were in its bucket when it started or
were queued at its priority by some task body. -/
theorem drain_exec_src (env : Nat → List (Nat × Priority)) (p : Priority) :
    ∀ (fuel i : Nat) (st : FlushSt), ∀ t ∈ (drain env p fuel i st).2.1,
      some t ∈ st.sched.bucket p ∨ ∃ t', (t, p) ∈ env t' := by
  intro fuel
  induction fuel with
  | zero => intro i st t h; simp [drain] at h
  | succ fuel ih =>
    intro i st t ht
    match hslot : (st.sched.bucket p)[i]? with
    | none => rw [drain_succ_none hslot] at ht; cases ht
    | some none =>
      rw [drain_succ_skip hslot] at ht
      exact ih _ st t ht
    | some (some u) =>
      rw [drain_succ_run hslot] at ht
      simp only at ht
      rcases List.mem_cons.1 ht with rfl | ht'
      · exact Or.inl (List.mem_iff_getElem?.2 ⟨i, hslot⟩)
      · rcases ih _ _ t ht' with h' | h'
        · rcases mem_bucket_foldl_src h' with h'' | h''
          · exact Or.inl h''
          · exact Or.inr ⟨u, h''⟩
        · exact Or.inr h'

/-! #### A task whose body re-queues itself keeps the walk alive forever -/

/-- Bucket `p` holds a live slot for `t` at or past the walk cursor `n`. -/
def SlotInv (p : Priority) (t n : Nat) (s : Sched) : Prop :=
  ∃ j, n ≤ j ∧ (s.bucket p)[j]? = some (some t)

theorem slotInv_of_mem {p : Priority} {t : Nat} {s : Sched}
    (h : some t ∈ s.bucket p) : SlotInv p t 0 s := by
  obtain ⟨j, hj⟩ := List.mem_iff_getElem?.1 h
  exact ⟨j, Nat.zero_le j, hj⟩

theorem slotInv_queueTask {p : Priority} {t n : Nat} {s : Sched} {w : Nat}
    {q : Priority} (h : SlotInv p t n s) : SlotInv p t n (queueTask s w q) := by
  obtain ⟨j, hnj, hj⟩ := h
  have hjlen : j < (s.bucket p).length := (List.getElem?_eq_some.1 hj).1
  by_cases hqp : q = p
  · subst hqp
    by_cases hwt : w = t
    · subst hwt
      -- the renew empties every `t` slot and appends a fresh one at the end
      refine ⟨((s.bucket q).del w).length, ?_, ?_⟩
      · simp only [Bucket.del, List.length_map]
        omega
      · rw [bucket_queueTask, if_pos rfl]
        unfold Bucket.add
        rw [if_neg (Bucket.not_some_mem_del _ _)]
        exact List.getElem?_concat_length _ _
    · refine ⟨j, hnj, ?_⟩
      rw [bucket_queueTask, if_pos rfl]
      have hdel : ((s.bucket q).del w)[j]? = some (some t) := by
        simp only [Bucket.del, List.getElem?_map, hj, Option.map_some]
        have : (some t : Option Nat) ≠ some w := by
          intro hc; injection hc with hc; exact hwt hc.symm
        simp [this]
      unfold Bucket.add
      split
      · exact hdel
      · rw [List.getElem?_append, if_pos (by simpa [Bucket.del] using hjlen)]
        exact hdel
  · exact ⟨j, hnj, by rw [bucket_queueTask_ne (fun hc => hqp hc.symm)]; exact hj⟩

theorem slotInv_foldl {l : List (Nat × Priority)} {s : Sched} {p : Priority}
    {t n : Nat} (h : SlotInv p t n s) :
    SlotInv p t n (l.foldl (fun s uq => queueTask s uq.1 uq.2) s) := by
  induction l generalizing s with
  | nil => exact h
  | cons uq rest ih =>
    rw [List.foldl_cons]
    exact ih (slotInv_queueTask h)

theorem slotInv_foldl_of_call {l : List (Nat × Priority)} {s : Sched}
    {p : Priority} {t n : Nat} (hcall : (t, p) ∈ l)
    (hn : n ≤ (s.bucket p).length) :
    SlotInv p t n (l.foldl (fun s uq => queueTask s uq.1 uq.2) s) := by
  induction l generalizing s with
  | nil => cases hcall
  | cons uq rest ih =>
    rw [List.foldl_cons]
    rcases List.mem_cons.1 hcall with heq | hrest
    · subst heq
      refine slotInv_foldl ?_
      refine ⟨((s.bucket p).del t).length, ?_, ?_⟩
      · simpa [Bucket.del] using hn
      · rw [bucket_queueTask, if_pos rfl]
        unfold Bucket.add
        rw [if_neg (Bucket.not_some_mem_del _ _)]
        exact List.getElem?_concat_length _ _
    · exact ih hrest (hn.trans (length_bucket_queueTask_le s uq.1 uq.2 p))

/-- The `forEach` walk of bucket `p` never finishes while a task whose body
re-queues itself at `p` is pending at or past the cursor: the renew empties
the pending slot but appends a fresh one the walk will reach again. -/
theorem drain_self_incomplete (env : Nat → List (Nat × Priority)) (p : Priority)
    (t : Nat) (hself : (t, p) ∈ env t) :
    ∀ (fuel i : Nat) (st : FlushSt), SlotInv p t i st.sched →
      (drain env p fuel i st).2.2 = false := by
  intro fuel
  induction fuel with
  | zero => intro i st _; rfl
  | succ fuel ih =>
    intro i st hinv
    match hslot : (st.sched.bucket p)[i]? with
    | none =>
      exfalso
      obtain ⟨j, hij, hj⟩ := hinv
      have hlen : (st.sched.bucket p).length ≤ i := List.getElem?_eq_none_iff.1 hslot
      have hjlen : j < (st.sched.bucket p).length := (List.getElem?_eq_some.1 hj).1
      omega
    | some none =>
      rw [drain_succ_skip hslot]
      apply ih
      obtain ⟨j, hij, hj⟩ := hinv
      have hji : j ≠ i := by
        intro hc
        subst hc
        rw [hj] at hslot
        cases hslot
      exact ⟨j, by omega, hj⟩
    | some (some u) =>
      rw [drain_succ_run hslot]
      simp only
      apply ih
      have hilen : i < (st.sched.bucket p).length := (List.getElem?_eq_some.1 hslot).1
      by_cases hut : u = t
      · subst hut
        exact slotInv_foldl_of_call hself (by omega)
      · obtain ⟨j, hij, hj⟩ := hinv
        have hji : j ≠ i := by
          intro hc
          subst hc
          rw [hj] at hslot
          injection hslot with hc2
          injection hc2 with hc3
          exact hut hc3.symm
        exact slotInv_foldl ⟨j, by omega, hj⟩

/-! #### Taking a completed flush apart -/

theorem bucket_clearBucket_ne {st : FlushSt} {p q : Priority} (h : q ≠ p) :
    (clearBucket st p).sched.bucket q = st.sched.bucket q := by
  simp [clearBucket, Sched.bucket_setBucket, h]

theorem log_clearBucket (st : FlushSt) (p : Priority) :
    (clearBucket st p).log = st.log := rfl

theorem flushTasks_complete_elim {env : Nat → List (Nat × Priority)} {fuel : Nat}
    {st st' : FlushSt} {eH eM eL : List Nat}
    (hrun : flushTasks env fuel st = (st', (eH, eM, eL), true)) :
    ∃ stH stM stL,
      drain env .high fuel 0 st = (stH, eH, true) ∧
      drain env .middle fuel 0 (clearBucket stH .high) = (stM, eM, true) ∧
      drain env .low fuel 0 (clearBucket stM .middle) = (stL, eL, true) ∧
      st' = { clearBucket stL .low with
                sched := { (clearBucket stL .low).sched with pending := false } } := by
  simp only [flushTasks] at hrun
  split at hrun
  case isFalse h1 => simp [Prod.ext_iff] at hrun
  case isTrue h1 =>
    split at hrun
    case isFalse h2 => simp [Prod.ext_iff] at hrun
    case isTrue h2 =>
      split at hrun
      case isFalse h3 => simp [Prod.ext_iff] at hrun
      case isTrue h3 =>
        simp only [Prod.mk.injEq] at hrun
        obtain ⟨hst', ⟨hh, hm, hl⟩, -⟩ := hrun
        refine ⟨(drain env .high fuel 0 st).1,
          (drain env .middle fuel 0 (clearBucket (drain env .high fuel 0 st).1 .high)).1,
          (drain env .low fuel 0
            (clearBucket
              (drain env .middle fuel 0
                (clearBucket (drain env .high fuel 0 st).1 .high)).1 .middle)).1,
          ?_, ?_, ?_, ?_⟩
        · rw [← hh]
          exact Prod.ext rfl (Prod.ext rfl h1)
        · rw [← hm]
          exact Prod.ext rfl (Prod.ext rfl h2)
        · rw [← hl]
          exact Prod.ext rfl (Prod.ext rfl h3)
        · exact hst'.symm

theorem drain_final_members_exec (env : Nat → List (Nat × Priority)) (p : Priority)
    (fuel : Nat) (st : FlushSt) (hok : (drain env p fuel 0 st).2.2 = true)
    {t : Nat} (hmem : some t ∈ (drain env p fuel 0 st).1.sched.bucket p) :
    t ∈ (drain env p fuel 0 st).2.1 := by
  obtain ⟨j, hj⟩ := List.mem_iff_getElem?.1 hmem
  exact drain_slot_exec env p fuel 0 st hok t j (Nat.zero_le j) hj

/-- The whole-bucket count of `t`-slots is untouched by a drain none of whose
executed tasks re-queues `t`. -/
theorem drain_count_frame (env : Nat → List (Nat × Priority)) (p : Priority)
    (t : Nat) :
    ∀ (fuel i : Nat) (st : FlushSt) (q : Priority),
      (∀ t' ∈ (drain env p fuel i st).2.1, ∀ uq ∈ env t', uq.1 ≠ t) →
      ((drain env p fuel i st).1.sched.bucket q).count (some t)
        = (st.sched.bucket q).count (some t) := by
  intro fuel
  induction fuel with
  | zero => intro i st q _; rfl
  | succ fuel ih =>
    intro i st q henq
    match hslot : (st.sched.bucket p)[i]? with
    | none => rw [drain_succ_none hslot]
    | some none =>
      rw [drain_succ_skip hslot] at henq ⊢
      exact ih _ st q henq
    | some (some u) =>
      rw [drain_succ_run hslot] at henq ⊢
      simp only at henq ⊢
      rw [ih _ _ q (fun t' ht' => henq t' (List.mem_cons_of_mem _ ht'))]
      exact count_bucket_foldl_ne (henq u (List.mem_cons_self _ _))

theorem Bucket.count_some_del_add (b : Bucket) (t : Nat) :
    ((b.del t).add t).count (some t) = 1 := by
  unfold Bucket.add
  rw [if_neg (Bucket.not_some_mem_del b t)]
  rw [List.count_append]
  have h0 : (b.del t).count (some t) = 0 :=
    List.count_eq_zero.2 (Bucket.not_some_mem_del b t)
  simp [h0]

/-! #### Claim C2 -/

/-- Environment refuting the bucket-emptiness part of C2: task `0` (sitting
in the Low bucket) queues task `1` at High when it runs. -/
def envLowQueuesHigh : Nat → List (Nat × Priority) :=
  fun t => if t = 0 then [(1, Priority.high)] else []

/-- C2, counterexample: a flush that runs to completion can end with a
non-empty bucket.  Task `0` runs during the Low drain and queues task `1` at
High; the High bucket was already drained and cleared, so `some 1` is still
sitting in it when `flushTasks` returns ("all three non-immediate buckets
are empty" fails). -/
theorem C2_counterexample :
    (flushTasks envLowQueuesHigh 8 ⟨⟨[], [], [some 0], true⟩, []⟩).2.2 = true ∧
    (flushTasks envLowQueuesHigh 8 ⟨⟨[], [], [some 0], true⟩, []⟩).1.sched.high ≠ [] := by
  decide

/-- C2 (amended): a completed `flushTasks` run drains High, then Middle, then
Low, in that order in the execution log; each phase runs only tasks that were
in its bucket or were queued at its priority; every task in a bucket at flush
start runs in its phase; a task queued during the flush at a priority whose
drain has not yet finished still runs before the flush returns; the
pending-microtask flag is cleared and the Low bucket ends empty; the High
(resp. Middle) bucket ends empty provided no task run during the Middle/Low
(resp. Low) drain queued a task at High (resp. Middle) — a task queued into
an already-drained bucket stays queued for a later flush instead. -/
theorem C2_flush_spec (env : Nat → List (Nat × Priority)) (fuel : Nat)
    (st st' : FlushSt) (eH eM eL : List Nat)
    (hrun : flushTasks env fuel st = (st', (eH, eM, eL), true)) :
    st'.sched.pending = false
    ∧ st'.log = st.log ++ eH ++ eM ++ eL
    ∧ (∀ t ∈ eH, some t ∈ st.sched.high ∨ ∃ t', (t, .high) ∈ env t')
    ∧ (∀ t ∈ eM, some t ∈ st.sched.middle ∨ ∃ t', (t, .middle) ∈ env t')
    ∧ (∀ t ∈ eL, some t ∈ st.sched.low ∨ ∃ t', (t, .low) ∈ env t')
    ∧ (∀ t, some t ∈ st.sched.high → t ∈ eH)
    ∧ (∀ t, some t ∈ st.sched.middle → t ∈ eM)
    ∧ (∀ t, some t ∈ st.sched.low → t ∈ eL)
    ∧ (∀ t' ∈ eH, ∀ uq ∈ env t', uq.1 ∈ phaseExec (eH, eM, eL) uq.2)
    ∧ (∀ t' ∈ eM, ∀ uq ∈ env t', uq.2 ≠ .high →
        uq.1 ∈ phaseExec (eH, eM, eL) uq.2)
    ∧ (∀ t' ∈ eL, ∀ uq ∈ env t', uq.2 = .low → uq.1 ∈ eL)
    ∧ st'.sched.low = []
    ∧ ((∀ t' ∈ eM ++ eL, ∀ uq ∈ env t', uq.2 ≠ .high) → st'.sched.high = [])
    ∧ ((∀ t' ∈ eL, ∀ uq ∈ env t', uq.2 ≠ .middle) → st'.sched.middle = []) := by
  obtain ⟨stH, stM, stL, hH, hM, hL, hst'⟩ := flushTasks_complete_elim hrun
  -- phase-start states
  set stM0 := clearBucket stH .high with hstM0
  set stL0 := clearBucket stM .middle with hstL0
  have hokH : (drain env .high fuel 0 st).2.2 = true := by rw [hH]
  have hokM : (drain env .middle fuel 0 stM0).2.2 = true := by rw [hM]
  have hokL : (drain env .low fuel 0 stL0).2.2 = true := by rw [hL]
  have heH : (drain env .high fuel 0 st).2.1 = eH := by rw [hH]
  have heM : (drain env .middle fuel 0 stM0).2.1 = eM := by rw [hM]
  have heL : (drain env .low fuel 0 stL0).2.1 = eL := by rw [hL]
  have hsH : (drain env .high fuel 0 st).1 = stH := by rw [hH]
  have hsM : (drain env .middle fuel 0 stM0).1 = stM := by rw [hM]
  have hsL : (drain env .low fuel 0 stL0).1 = stL := by rw [hL]
  -- bucket values at the start of each phase
  have hbM0mid : stM0.sched.bucket .middle = stH.sched.bucket .middle :=
    bucket_clearBucket_ne (by simp)
  have hbM0low : stM0.sched.bucket .low = stH.sched.bucket .low :=
    bucket_clearBucket_ne (by simp)
  have hbM0high : stM0.sched.bucket .high = [] := by
    simp [hstM0, clearBucket, Sched.bucket_setBucket]
  have hbL0low : stL0.sched.bucket .low = stM.sched.bucket .low :=
    bucket_clearBucket_ne (by simp)
  have hbL0high : stL0.sched.bucket .high = stM.sched.bucket .high :=
    bucket_clearBucket_ne (by simp)
  have hbL0mid : stL0.sched.bucket .middle = [] := by
    simp [hstL0, clearBucket, Sched.bucket_setBucket]
  -- membership in a bucket at flush start survives up to that bucket's drain
  have hmidStart : ∀ t, some t ∈ st.sched.middle → some t ∈ stM0.sched.bucket .middle := by
    intro t ht
    rw [hbM0mid, ← hsH]
    exact mem_bucket_drain_of_mem ht
  have hlowStartM : ∀ t, some t ∈ st.sched.low → some t ∈ stM0.sched.bucket .low := by
    intro t ht
    rw [hbM0low, ← hsH]
    exact mem_bucket_drain_of_mem ht
  have hlowStart : ∀ t, some t ∈ st.sched.low → some t ∈ stL0.sched.bucket .low := by
    intro t ht
    rw [hbL0low, ← hsM]
    exact mem_bucket_drain_of_mem (hlowStartM t ht)
  -- executing a member of the bucket a phase drains
  have hexecM : ∀ t, some t ∈ stM0.sched.bucket .middle → t ∈ eM := by
    intro t ht
    rw [← heM]
    exact drain_members_exec env .middle fuel stM0 hokM ht
  have hexecL : ∀ t, some t ∈ stL0.sched.bucket .low → t ∈ eL := by
    intro t ht
    rw [← heL]
    exact drain_members_exec env .low fuel stL0 hokL ht
  have hexecH : ∀ t, some t ∈ st.sched.bucket .high → t ∈ eH := by
    intro t ht
    rw [← heH]
    exact drain_members_exec env .high fuel st hokH ht
  -- a task left in a phase's bucket when its drain finishes was executed
  have hfinalH : ∀ t, some t ∈ stH.sched.bucket .high → t ∈ eH := by
    intro t ht
    rw [← heH]
    exact drain_final_members_exec env .high fuel st hokH (by rw [hsH]; exact ht)
  have hfinalM : ∀ t, some t ∈ stM.sched.bucket .middle → t ∈ eM := by
    intro t ht
    rw [← heM]
    exact drain_final_members_exec env .middle fuel stM0 hokM (by rw [hsM]; exact ht)
  have hfinalL : ∀ t, some t ∈ stL.sched.bucket .low → t ∈ eL := by
    intro t ht
    rw [← heL]
    exact drain_final_members_exec env .low fuel stL0 hokL (by rw [hsL]; exact ht)
  -- membership at the end of the Middle phase reaches the Low drain
  have hML : ∀ t, some t ∈ stM.sched.bucket .low → t ∈ eL := by
    intro t ht
    exact hexecL t (by rw [hbL0low]; exact ht)
  refine ⟨?_, ?_, ?_, ?_, ?_, ?_, ?_, ?_, ?_, ?_, ?_, ?_, ?_, ?_⟩
  · rw [hst']
  · have l1 : stH.log = st.log ++ eH := by
      rw [← hsH, ← heH]
      exact drain_log env .high fuel 0 st
    have l2 : stM.log = stH.log ++ eM := by
      rw [← hsM, ← heM]
      exact drain_log env .middle fuel 0 stM0
    have l3 : stL.log = stM.log ++ eL := by
      rw [← hsL, ← heL]
      exact drain_log env .low fuel 0 stL0
    rw [hst']
    show stL.log = st.log ++ eH ++ eM ++ eL
    rw [l3, l2, l1]
  · intro t ht
    rw [← heH] at ht
    exact drain_exec_src env .high fuel 0 st t ht
  · intro t ht
    rw [← heM] at ht
    rcases drain_exec_src env .middle fuel 0 stM0 t ht with h | h
    · rw [hbM0mid, ← hsH] at h
      rcases mem_bucket_drain_src env .high fuel 0 st h with h' | h'
      · exact Or.inl h'
      · exact Or.inr h'
    · exact Or.inr h
  · intro t ht
    rw [← heL] at ht
    rcases drain_exec_src env .low fuel 0 stL0 t ht with h | h
    · rw [hbL0low, ← hsM] at h
      rcases mem_bucket_drain_src env .middle fuel 0 stM0 h with h' | h'
      · rw [hbM0low, ← hsH] at h'
        rcases mem_bucket_drain_src env .high fuel 0 st h' with h'' | h''
        · exact Or.inl h''
        · exact Or.inr h''
      · exact Or.inr h'
    · exact Or.inr h
  · exact fun t ht => hexecH t ht
  · exact fun t ht => hexecM t (hmidStart t ht)
  · exact fun t ht => hexecL t (hlowStart t ht)
  · -- tasks queued by a High-phase task all run in this flush
    intro t' ht' uq huq
    have hm : some uq.1 ∈ stH.sched.bucket uq.2 := by
      rw [← hsH]
      exact drain_enq_mem env .high fuel 0 st t' (by rw [heH]; exact ht') uq huq
    match hq : uq.2 with
    | .high =>
      rw [hq] at hm
      exact hfinalH uq.1 hm
    | .middle =>
      rw [hq] at hm
      exact hexecM uq.1 (by rw [hbM0mid]; exact hm)
    | .low =>
      rw [hq] at hm
      have : some uq.1 ∈ stM0.sched.bucket .low := by rw [hbM0low]; exact hm
      have : some uq.1 ∈ stM.sched.bucket .low := by
        rw [← hsM]
        exact mem_bucket_drain_of_mem this
      exact hML uq.1 this
  · -- tasks queued by a Middle-phase task at Middle or Low run in this flush
    intro t' ht' uq huq hqne
    have hm : some uq.1 ∈ stM.sched.bucket uq.2 := by
      rw [← hsM]
      exact drain_enq_mem env .middle fuel 0 stM0 t' (by rw [heM]; exact ht') uq huq
    match hq : uq.2 with
    | .high => exact absurd hq hqne
    | .middle =>
      rw [hq] at hm
      exact hfinalM uq.1 hm
    | .low =>
      rw [hq] at hm
      exact hML uq.1 hm
  · intro t' ht' uq huq hq
    have hm : some uq.1 ∈ stL.sched.bucket uq.2 := by
      rw [← hsL]
      exact drain_enq_mem env .low fuel 0 stL0 t' (by rw [heL]; exact ht') uq huq
    rw [hq] at hm
    exact hfinalL uq.1 hm
  · rw [hst']
    simp [clearBucket, Sched.setBucket]
  · -- High ends empty when no Middle/Low-phase task queues at High
    intro hnone
    have hMfr : stM.sched.bucket .high = stM0.sched.bucket .high := by
      rw [← hsM]
      exact drain_frame env .middle fuel 0 stM0 .high (by simp)
        (fun t' ht' => hnone t' (List.mem_append_left _ (by rw [← heM]; exact ht')))
    have hLfr : stL.sched.bucket .high = stL0.sched.bucket .high := by
      rw [← hsL]
      exact drain_frame env .low fuel 0 stL0 .high (by simp)
        (fun t' ht' => hnone t' (List.mem_append_right _ (by rw [← heL]; exact ht')))
    have : stL.sched.bucket .high = [] := by
      rw [hLfr, hbL0high, hMfr, hbM0high]
    rw [hst']
    show (clearBucket stL .low).sched.high = []
    have hcb : (clearBucket stL .low).sched.bucket .high = stL.sched.bucket .high :=
      bucket_clearBucket_ne (by simp)
    rw [show (clearBucket stL .low).sched.high
        = (clearBucket stL .low).sched.bucket .high from rfl, hcb, this]
  · intro hnone
    have hLfr : stL.sched.bucket .middle = stL0.sched.bucket .middle := by
      rw [← hsL]
      exact drain_frame env .low fuel 0 stL0 .middle (by simp)
        (fun t' ht' => hnone t' (by rw [← heL]; exact ht'))
    have : stL.sched.bucket .middle = [] := by rw [hLfr, hbL0mid]
    rw [hst']
    show (clearBucket stL .low).sched.middle = []
    have hcb : (clearBucket stL .low).sched.bucket .middle = stL.sched.bucket .middle :=
      bucket_clearBucket_ne (by simp)
    rw [show (clearBucket stL .low).sched.middle
        = (clearBucket stL .low).sched.bucket .middle from rfl, hcb, this]

/-- C2, witness: the amended flush theorem applied to a concrete scheduler
state, with the run hypothesis discharged by evaluation. -/
theorem C2_flush_spec_witness :
    (⟨⟨[], [], [], false⟩, []⟩ : FlushSt).sched.pending = false
    ∧ (⟨⟨[], [], [], false⟩, []⟩ : FlushSt).sched.low = [] := by
  have h := C2_flush_spec (fun _ => []) 1 ⟨⟨[], [], [], true⟩, []⟩
    ⟨⟨[], [], [], false⟩, []⟩ [] [] [] (by decide)
  exact ⟨h.1, h.2.2.2.2.2.2.2.2.2.2.2.1⟩

/-! #### Claim C3 -/

/-- A flush never completes while a task whose body re-queues itself at its
own priority is pending: its renewed slot is always ahead of the walk. -/
theorem flush_self_requeue_incomplete (env : Nat → List (Nat × Priority))
    {t : Nat} {p : Priority} {s : Sched} (lg : List Nat)
    (hself : (t, p) ∈ env t) (hmem : some t ∈ s.bucket p) (fuel : Nat) :
    (flushTasks env fuel ⟨s, lg⟩).2.2 = false := by
  cases p with
  | high =>
    have hbad : (drain env .high fuel 0 ⟨s, lg⟩).2.2 = false :=
      drain_self_incomplete env .high t hself fuel 0 ⟨s, lg⟩ (slotInv_of_mem hmem)
    simp only [flushTasks]
    split
    case isTrue h1 => rw [h1] at hbad; cases hbad
    case isFalse h1 => rfl
  | middle =>
    simp only [flushTasks]
    split
    case isFalse h1 => rfl
    case isTrue h1 =>
      have hmem2 : some t ∈
          (clearBucket (drain env .high fuel 0 ⟨s, lg⟩).1 .high).sched.bucket .middle := by
        rw [bucket_clearBucket_ne (by simp)]
        exact mem_bucket_drain_of_mem hmem
      have hbad := drain_self_incomplete env .middle t hself fuel 0
        (clearBucket (drain env .high fuel 0 ⟨s, lg⟩).1 .high) (slotInv_of_mem hmem2)
      split
      case isTrue h2 => rw [h2] at hbad; cases hbad
      case isFalse h2 => rfl
  | low =>
    simp only [flushTasks]
    split
    case isFalse h1 => rfl
    case isTrue h1 =>
      split
      case isFalse h2 => rfl
      case isTrue h2 =>
        have hmem2 : some t ∈
            (clearBucket (drain env .high fuel 0 ⟨s, lg⟩).1 .high).sched.bucket .low := by
          rw [bucket_clearBucket_ne (by simp)]
          exact mem_bucket_drain_of_mem hmem
        have hmem3 : some t ∈
            (clearBucket
              (drain env .middle fuel 0
                (clearBucket (drain env .high fuel 0 ⟨s, lg⟩).1 .high)).1
              .middle).sched.bucket .low := by
          rw [bucket_clearBucket_ne (by simp)]
          exact mem_bucket_drain_of_mem hmem2
        have hbad := drain_self_incomplete env .low t hself fuel 0
          (clearBucket
            (drain env .middle fuel 0
              (clearBucket (drain env .high fuel 0 ⟨s, lg⟩).1 .high)).1
            .middle) (slotInv_of_mem hmem3)
        split
        case isTrue h3 => rw [h3] at hbad; cases hbad
        case isFalse h3 => rfl

/-- A completed flush during which nobody re-queues `t` runs `t` once per
`t`-slot present at flush start, summed over the three buckets. -/
theorem flush_count_log (env : Nat → List (Nat × Priority)) (fuel : Nat)
    (st st' : FlushSt) (eH eM eL : List Nat) (t : Nat)
    (hrun : flushTasks env fuel st = (st', (eH, eM, eL), true))
    (hnoenq : ∀ t' ∈ eH ++ eM ++ eL, ∀ uq ∈ env t', uq.1 ≠ t) :
    st'.log.count t = st.log.count t
      + ((st.sched.high.count (some t) + st.sched.middle.count (some t))
          + st.sched.low.count (some t)) := by
  obtain ⟨stH, stM, stL, hH, hM, hL, hst'⟩ := flushTasks_complete_elim hrun
  set stM0 := clearBucket stH .high with hstM0
  set stL0 := clearBucket stM .middle with hstL0
  have hokH : (drain env .high fuel 0 st).2.2 = true := by rw [hH]
  have hokM : (drain env .middle fuel 0 stM0).2.2 = true := by rw [hM]
  have hokL : (drain env .low fuel 0 stL0).2.2 = true := by rw [hL]
  have heH : (drain env .high fuel 0 st).2.1 = eH := by rw [hH]
  have heM : (drain env .middle fuel 0 stM0).2.1 = eM := by rw [hM]
  have heL : (drain env .low fuel 0 stL0).2.1 = eL := by rw [hL]
  have hsH : (drain env .high fuel 0 st).1 = stH := by rw [hH]
  have hsM : (drain env .middle fuel 0 stM0).1 = stM := by rw [hM]
  have hsL : (drain env .low fuel 0 stL0).1 = stL := by rw [hL]
  have hnH : ∀ t' ∈ eH, ∀ uq ∈ env t', uq.1 ≠ t := fun t' ht' =>
    hnoenq t' (List.mem_append_left _ (List.mem_append_left _ ht'))
  have hnM : ∀ t' ∈ eM, ∀ uq ∈ env t', uq.1 ≠ t := fun t' ht' =>
    hnoenq t' (List.mem_append_left _ (List.mem_append_right _ ht'))
  have hnL : ∀ t' ∈ eL, ∀ uq ∈ env t', uq.1 ≠ t := fun t' ht' =>
    hnoenq t' (List.mem_append_right _ ht')
  -- executions per phase
  have hcH : eH.count t = st.sched.high.count (some t) := by
    have := drain_count env .high t fuel 0 st hokH (by rw [heH]; exact hnH)
    rw [heH] at this
    simpa using this
  have hcM : eM.count t = st.sched.middle.count (some t) := by
    have h1 := drain_count env .middle t fuel 0 stM0 hokM (by rw [heM]; exact hnM)
    rw [heM] at h1
    have h2 : (stM0.sched.bucket .middle).count (some t)
        = (st.sched.bucket .middle).count (some t) := by
      rw [show stM0.sched.bucket .middle = stH.sched.bucket .middle from
        bucket_clearBucket_ne (by simp), ← hsH]
      exact drain_count_frame env .high t fuel 0 st .middle (by rw [heH]; exact hnH)
    simpa [h2] using h1
  have hcL : eL.count t = st.sched.low.count (some t) := by
    have h1 := drain_count env .low t fuel 0 stL0 hokL (by rw [heL]; exact hnL)
    rw [heL] at h1
    have h2 : (stL0.sched.bucket .low).count (some t)
        = (st.sched.bucket .low).count (some t) := by
      rw [show stL0.sched.bucket .low = stM.sched.bucket .low from
        bucket_clearBucket_ne (by simp), ← hsM]
      rw [drain_count_frame env .middle t fuel 0 stM0 .low (by rw [heM]; exact hnM)]
      rw [show stM0.sched.bucket .low = stH.sched.bucket .low from
        bucket_clearBucket_ne (by simp), ← hsH]
      exact drain_count_frame env .high t fuel 0 st .low (by rw [heH]; exact hnH)
    simpa [h2] using h1
  -- total log
  have l1 : stH.log = st.log ++ eH := by
    rw [← hsH, ← heH]
    exact drain_log env .high fuel 0 st
  have l2 : stM.log = stH.log ++ eM := by
    rw [← hsM, ← heM]
    exact drain_log env .middle fuel 0 stM0
  have l3 : stL.log = stM.log ++ eL := by
    rw [← hsL, ← heL]
    exact drain_log env .low fuel 0 stL0
  have hlog : st'.log = st.log ++ eH ++ eM ++ eL := by
    rw [hst']
    show stL.log = st.log ++ eH ++ eM ++ eL
    rw [l3, l2, l1]
  rw [hlog]
  simp [List.count_append, hcH, hcM, hcL]
  omega

/-- Environment for the self-requeue refutation: task `0` calls
`queueTask(task0, Middle)` from within its own run. -/
def envSelfRequeue : Nat → List (Nat × Priority) :=
  fun t => if t = 0 then [(0, Priority.middle)] else []

/-- C3, counterexample: a task that queues itself from within its own run is
executed *again within the same flush* — the claim's "once now, once in the
next flush only" fails.  With task `0` self-requeueing at Middle, a flush
given fuel `12` runs it at least twice in its Middle phase (and the flush
does not even finish). -/
theorem C3_counterexample :
    2 ≤ ((flushTasks envSelfRequeue 12 ⟨⟨[], [some 0], [], true⟩, []⟩).2.1).2.1.count 0
    ∧ (flushTasks envSelfRequeue 12 ⟨⟨[], [some 0], [], true⟩, []⟩).2.2 = false := by
  decide

/-- C3 (amended): queuing a task `t` twice (or more) before the next flush
still results in exactly one execution of `t` in that flush, provided no
task run by the flush re-queues `t`; but a task that calls `queueTask` on
itself from within its own run is revisited by the very same flush — its
renewed slot is appended past the `forEach` cursor, so the flush never
completes while it keeps re-queueing itself (rather than the execution
moving to the next flush only). -/
theorem C3_dedup_and_self_requeue :
    (∀ (env : Nat → List (Nat × Priority)) (fuel : Nat) (s : Sched) (lg : List Nat)
        (t : Nat) (p : Priority) (st' : FlushSt) (eH eM eL : List Nat),
        flushTasks env fuel ⟨queueTask (queueTask s t p) t p, lg⟩
          = (st', (eH, eM, eL), true) →
        (∀ t' ∈ eH ++ eM ++ eL, ∀ uq ∈ env t', uq.1 ≠ t) →
        (∀ q, q ≠ p → some t ∉ s.bucket q) →
        st'.log.count t = lg.count t + 1)
    ∧ (∀ (env : Nat → List (Nat × Priority)) (s : Sched) (lg : List Nat)
        (t : Nat) (p : Priority), (t, p) ∈ env t → some t ∈ s.bucket p →
        ∀ fuel, (flushTasks env fuel ⟨s, lg⟩).2.2 = false) := by
  constructor
  · intro env fuel s lg t p st' eH eM eL hrun hnoenq hother
    have hcount := flush_count_log env fuel _ st' eH eM eL t hrun hnoenq
    set qq := queueTask (queueTask s t p) t p with hqq
    have hbp : (qq.bucket p).count (some t) = 1 := by
      rw [hqq, bucket_queueTask, if_pos rfl]
      exact Bucket.count_some_del_add _ t
    have hbq : ∀ q, q ≠ p → (qq.bucket q).count (some t) = 0 := by
      intro q hq
      rw [hqq, bucket_queueTask_ne hq, bucket_queueTask_ne hq]
      exact List.count_eq_zero.2 (hother q hq)
    have hsum : (qq.high.count (some t) + qq.middle.count (some t))
        + qq.low.count (some t) = 1 := by
      cases p with
      | high =>
        have h1 : qq.high.count (some t) = 1 := hbp
        have h2 : qq.middle.count (some t) = 0 := hbq .middle (by simp)
        have h3 : qq.low.count (some t) = 0 := hbq .low (by simp)
        omega
      | middle =>
        have h1 : qq.middle.count (some t) = 1 := hbp
        have h2 : qq.high.count (some t) = 0 := hbq .high (by simp)
        have h3 : qq.low.count (some t) = 0 := hbq .low (by simp)
        omega
      | low =>
        have h1 : qq.low.count (some t) = 1 := hbp
        have h2 : qq.high.count (some t) = 0 := hbq .high (by simp)
        have h3 : qq.middle.count (some t) = 0 := hbq .middle (by simp)
        omega
    rw [hcount, hsum]
  · intro env s lg t p hself hmem fuel
    exact flush_self_requeue_incomplete env lg hself hmem fuel

/-- C3, witness: the dedup half applied to a concrete double-queued task and
the self-requeue half applied to the concrete self-requeueing environment. -/
theorem C3_dedup_and_self_requeue_witness :
    (⟨⟨[], [], [], false⟩, [5]⟩ : FlushSt).log.count 5 = ([] : List Nat).count 5 + 1
    ∧ (flushTasks envSelfRequeue 12 ⟨⟨[], [some 0], [], true⟩, []⟩).2.2 = false := by
  constructor
  · exact C3_dedup_and_self_requeue.1 (fun _ => []) 3 ⟨[], [], [], false⟩ [] 5 .middle
      ⟨⟨[], [], [], false⟩, [5]⟩ [] [5] [] (by decide) (by decide) (by decide)
  · exact C3_dedup_and_self_requeue.2 envSelfRequeue ⟨[], [some 0], [], true⟩ [] 0 .middle
      (by decide) (by decide) 12

/-! ### Signal graph (`reactive.ts`)

Targets are identified by `Nat` ids; a target's `isInUse` flag is supplied
by an environment `live : Nat → Bool` (liveness does not change during one
setter run in the embedded fragment: non-immediate `update` bodies only
queue work).  The `#deps` map (`Map<Target, Set<Specifier>>`) is embedded as
an insertion-ordered association list whose values are insertion-ordered
duplicate-free specifier lists. -/

/-- A reactive context frame; both fields are optional in the source. -/
structure ReactiveCtx where
  target : Option Nat
  specifier : Option String
deriving DecidableEq, Repr

/-- `Ref`'s state: current value plus the `#deps` map. -/
structure RefState (V : Type) where
  value : V
  deps : List (Nat × List String)
deriving DecidableEq, Repr

/-- The getter's registration step: add `specifier` to the target's
specifier set, creating the entry when the target is not yet a key. -/
def depsAdd : List (Nat × List String) → Nat → String → List (Nat × List String)
  | [], t, sp => [(t, [sp])]
  | (t', sps) :: rest, t, sp =>
    if t' = t then (t', if sp ∈ sps then sps else sps ++ [sp]) :: rest
    else (t', sps) :: depsAdd rest t sp

/-- `Ref.value` getter: a read while `reactiveContextStack.at(-1)` carries
both a target and a specifier registers the pair; any other read is plain. -/
def refGet {V : Type} (stack : List ReactiveCtx) (s : RefState V) : RefState V × V :=
  match stack.getLast? with
  | some ⟨some t, some sp⟩ => ({ s with deps := depsAdd s.deps t sp }, s.value)
  | _ => (s, s.value)

/-- The dep-map walk of `Ref.value`'s setter: prune entries whose target is
no longer in use, and for each live entry call `target.update(specifier)`
once per specifier, in insertion order.  Returns the surviving map and the
sequence of `update` invocations. -/
def refSetLoop (live : Nat → Bool) :
    List (Nat × List String) → List (Nat × List String) × List (Nat × String)
  | [] => ([], [])
  | (t, sps) :: rest =>
    let out := refSetLoop live rest
    if live t then ((t, sps) :: out.1, sps.map (fun sp => (t, sp)) ++ out.2)
    else out

/-- `Ref.value` setter: store unconditionally, then walk the deps map. -/
def refSet {V : Type} (live : Nat → Bool) (s : RefState V) (x : V) :
    RefState V × List (Nat × String) :=
  (⟨x, (refSetLoop live s.deps).1⟩, (refSetLoop live s.deps).2)

/-- `pushReactiveContextStack`. -/
def pushCtx (stack : List ReactiveCtx) (c : ReactiveCtx) : List ReactiveCtx :=
  stack ++ [c]

/-- `popReactiveContextStack`. -/
def popCtx (stack : List ReactiveCtx) : List ReactiveCtx := stack.dropLast

/-- The specifier set registered for a target in a deps map. -/
def specsOf (deps : List (Nat × List String)) (t : Nat) : List String :=
  match deps with
  | [] => []
  | (t', sps) :: rest => if t' = t then sps else specsOf rest t

theorem specsOf_cons (t' : Nat) (sps : List String)
    (rest : List (Nat × List String)) (t : Nat) :
    specsOf ((t', sps) :: rest) t = if t' = t then sps else specsOf rest t := rfl

/-- Well-formedness of a deps map: unique keys, duplicate-free sets. -/
def DepsWF (deps : List (Nat × List String)) : Prop :=
  (deps.map Prod.fst).Nodup ∧ ∀ e ∈ deps, e.2.Nodup

theorem specsOf_eq_nil_of_no_key {deps : List (Nat × List String)} {t : Nat}
    (h : ∀ sps, (t, sps) ∉ deps) : specsOf deps t = [] := by
  induction deps with
  | nil => rfl
  | cons e rest ih =>
    match e with
    | (t', sps) =>
      unfold specsOf
      split
      · next heq =>
        subst heq
        exact (h sps (List.mem_cons_self _ _)).elim
      · exact ih (fun sps' hmem => h sps' (List.mem_cons_of_mem _ hmem))

theorem keys_depsAdd_subset {deps : List (Nat × List String)} {t : Nat}
    {sp : String} :
    ∀ k ∈ (depsAdd deps t sp).map Prod.fst, k ∈ deps.map Prod.fst ∨ k = t := by
  induction deps with
  | nil =>
    intro k hk
    simp [depsAdd] at hk
    simp [hk]
  | cons e rest ih =>
    match e with
    | (t', sps) =>
      intro k hk
      unfold depsAdd at hk
      split at hk
      · next heq =>
        subst heq
        exact Or.inl (by simpa using hk)
      · simp only [List.map_cons, List.mem_cons] at hk
        rcases hk with hk | hk
        · simp [hk]
        · rcases ih k hk with h' | h'
          · simp [h']
          · simp [h']

theorem depsAdd_wf {deps : List (Nat × List String)} {t : Nat} {sp : String}
    (h : DepsWF deps) : DepsWF (depsAdd deps t sp) := by
  induction deps with
  | nil =>
    refine ⟨by simp [depsAdd], ?_⟩
    intro e he
    simp only [depsAdd, List.mem_singleton] at he
    subst he
    simp
  | cons e rest ih =>
    match e with
    | (t', sps) =>
      obtain ⟨hkeys, hsets⟩ := h
      simp only [List.map_cons, List.nodup_cons] at hkeys
      have hwfr : DepsWF rest :=
        ⟨hkeys.2, fun e2 he2 => hsets e2 (List.mem_cons_of_mem _ he2)⟩
      unfold depsAdd
      split
      · next heq =>
        subst heq
        refine ⟨?_, ?_⟩
        · simp only [List.map_cons, List.nodup_cons]
          exact hkeys
        · intro e he
          rcases List.mem_cons.1 he with rfl | he'
          · show (if sp ∈ sps then sps else sps ++ [sp]).Nodup
            split
            · exact hsets _ (List.mem_cons_self _ _)
            · next hnot =>
              have hnd : sps.Nodup := hsets (t', sps) (List.mem_cons_self _ _)
              rw [List.nodup_append]
              refine ⟨hnd, List.nodup_singleton sp, ?_⟩
              intro a ha hb
              simp only [List.mem_singleton] at hb
              subst hb
              exact hnot ha
          · exact hsets _ (List.mem_cons_of_mem _ he')
      · next hne =>
        refine ⟨?_, ?_⟩
        · simp only [List.map_cons, List.nodup_cons]
          refine ⟨?_, (ih hwfr).1⟩
          intro hmem
          rcases keys_depsAdd_subset t' hmem with hk | hk
          · exact hkeys.1 hk
          · exact hne hk
        · intro e he
          rcases List.mem_cons.1 he with rfl | he'
          · exact hsets _ (List.mem_cons_self _ _)
          · exact (ih hwfr).2 e he'

theorem specsOf_depsAdd_self {deps : List (Nat × List String)} (t : Nat)
    (sp : String) : sp ∈ specsOf (depsAdd deps t sp) t := by
  induction deps with
  | nil => simp [depsAdd, specsOf]
  | cons e rest ih =>
    match e with
    | (t', sps) =>
      unfold depsAdd
      split
      · next heq =>
        subst heq
        unfold specsOf
        rw [if_pos rfl]
        split
        · assumption
        · simp
      · next hne =>
        unfold specsOf
        rw [if_neg hne]
        exact ih

theorem specsOf_nodup {deps : List (Nat × List String)} {t : Nat}
    (h : DepsWF deps) : (specsOf deps t).Nodup := by
  induction deps with
  | nil => simp [specsOf]
  | cons e rest ih =>
    match e with
    | (t', sps) =>
      unfold specsOf
      split
      · exact h.2 _ (List.mem_cons_self _ _)
      · exact ih ⟨(by simpa using h.1 : _ ∧ _).2, fun e he =>
          h.2 e (List.mem_cons_of_mem _ he)⟩

theorem count_map_pair (t : Nat) (sp' : String) (l : List String) :
    (l.map (fun sp => (t, sp))).count (t, sp') = l.count sp' := by
  induction l with
  | nil => rfl
  | cons a as ih =>
    simp only [List.map_cons, List.count_cons, ih]
    by_cases ha : a = sp' <;> simp [ha]

/-- Counting `update` calls in one setter run: a live target is updated once
per distinct registered specifier, a dead or unregistered one zero times. -/
theorem refSetLoop_count (live : Nat → Bool) (t : Nat) (sp' : String) :
    ∀ (deps : List (Nat × List String)), DepsWF deps →
      ((refSetLoop live deps).2).count (t, sp')
        = if live t = true ∧ sp' ∈ specsOf deps t then 1 else 0 := by
  intro deps
  induction deps with
  | nil => intro _; simp [refSetLoop, specsOf]
  | cons e rest ih =>
    match e with
    | (t', sps) =>
      intro hwf
      have hwfrest : DepsWF rest :=
        ⟨(by simpa using hwf.1 : _ ∧ _).2,
          fun e he => hwf.2 e (List.mem_cons_of_mem _ he)⟩
      have hrest := ih hwfrest
      unfold refSetLoop
      by_cases htt : t' = t
      · subst htt
        have hnokey : ∀ sps', (t', sps') ∉ rest := by
          intro sps' hmem
          have h1 := hwf.1
          simp only [List.map_cons, List.nodup_cons] at h1
          exact h1.1 (List.mem_map.2 ⟨(t', sps'), hmem, rfl⟩)
        have hspecs0 : specsOf rest t' = [] := specsOf_eq_nil_of_no_key hnokey
        by_cases hl : live t'
        · rw [if_pos hl]
          simp only [List.count_append]
          rw [count_map_pair t' sp' sps, hrest, hspecs0, specsOf_cons, if_pos rfl]
          have hnodup : sps.Nodup := hwf.2 _ (List.mem_cons_self _ _)
          by_cases hmem : sp' ∈ sps
          · simp [hl, hmem, List.count_eq_one_of_mem hnodup hmem]
          · simp [hmem, List.count_eq_zero_of_not_mem hmem]
        · rw [if_neg hl]
          rw [hrest, hspecs0, specsOf_cons, if_pos rfl]
          simp [(by simpa using hl : live t' = false)]
      · by_cases hl : live t'
        · rw [if_pos hl]
          simp only [List.count_append]
          have hmapzero : (sps.map (fun sp => (t', sp))).count (t, sp') = 0 := by
            refine List.count_eq_zero_of_not_mem ?_
            intro hmem
            obtain ⟨a, -, ha⟩ := List.mem_map.1 hmem
            exact htt (congrArg Prod.fst ha)
          rw [hmapzero, hrest, specsOf_cons, if_neg htt]
          simp
        · rw [if_neg hl]
          rw [hrest, specsOf_cons, if_neg htt]

/-- Dead entries are pruned by the setter and get no `update`. -/
theorem refSetLoop_prune (live : Nat → Bool) :
    ∀ (deps : List (Nat × List String)),
      (∀ e ∈ (refSetLoop live deps).1, live e.1 = true)
      ∧ ((refSetLoop live deps).1 = deps.filter (fun e => live e.1))
      ∧ (∀ t sp, live t = false → (t, sp) ∉ (refSetLoop live deps).2) := by
  intro deps
  induction deps with
  | nil => exact ⟨by simp [refSetLoop], by simp [refSetLoop], by simp [refSetLoop]⟩
  | cons e rest ih =>
    match e with
    | (t', sps) =>
      unfold refSetLoop
      by_cases hl : live t'
      · rw [if_pos hl]
        refine ⟨?_, ?_, ?_⟩
        · intro e he
          rcases List.mem_cons.1 he with rfl | he'
          · exact hl
          · exact ih.1 e he'
        · rw [List.filter_cons, if_pos (by simpa using hl)]
          simpa using ih.2.1
        · intro t sp hdead hmem
          rcases List.mem_append.1 hmem with hmem | hmem
          · obtain ⟨a, -, ha⟩ := List.mem_map.1 hmem
            have : t' = t := congrArg Prod.fst ha
            subst this
            rw [hl] at hdead
            cases hdead
          · exact ih.2.2 t sp hdead hmem
      · rw [if_neg hl]
        refine ⟨ih.1, ?_, ih.2.2⟩
        rw [List.filter_cons, if_neg (by simpa using hl)]
        exact ih.2.1

/-! #### Claim C4 -/

/-- C4, counterexample: popping the reactive context off the stack before
the write does not undo the dependency the read registered — the setter
never consults the context stack — so the write still invokes `update` once
(`[(0, "s")]`), not zero times as the claim states. -/
theorem C4_counterexample :
    (refSet (fun _ => true)
        (refGet [⟨some 0, some "s"⟩] (⟨0, []⟩ : RefState Nat)).1 1).2 = [(0, "s")]
    ∧ popCtx [⟨some 0, some "s"⟩] = [] := by
  constructor
  · rfl
  · rfl

/-- C4 (amended): reading `s.value` while `(target, specifier)` tops the
context stack and then writing any value invokes that target's `update`
exactly once per distinct specifier registered for it (the read's pair
included), whether or not the context has been popped in between; `update`
is invoked zero times for the target only when the context was popped
before the *read* (a plain read registers nothing) and the target has no
other registered entry. -/
theorem C4_read_then_write {V : Type} (live : Nat → Bool)
    (stack : List ReactiveCtx) (t : Nat) (sp : String) (s0 : RefState V) (x : V)
    (hwf : DepsWF s0.deps) (hlive : live t = true)
    (htop : stack.getLast? = some ⟨some t, some sp⟩) :
    (∀ sp', ((refSet live (refGet stack s0).1 x).2).count (t, sp')
        = if sp' ∈ specsOf (refGet stack s0).1.deps t then 1 else 0)
    ∧ sp ∈ specsOf (refGet stack s0).1.deps t
    ∧ (∀ stack' : List ReactiveCtx, stack'.getLast? = none →
        (refGet stack' s0).1 = s0)
    ∧ ((∀ sps, (t, sps) ∉ s0.deps) →
        ∀ sp', ((refSet live s0 x).2).count (t, sp') = 0) := by
  have hget : (refGet stack s0).1 = { s0 with deps := depsAdd s0.deps t sp } := by
    unfold refGet
    rw [htop]
  refine ⟨?_, ?_, ?_, ?_⟩
  · intro sp'
    rw [hget]
    have hwf' : DepsWF (depsAdd s0.deps t sp) := depsAdd_wf hwf
    unfold refSet
    simp only
    rw [refSetLoop_count live t sp' _ hwf']
    simp [hlive]
  · rw [hget]
    exact specsOf_depsAdd_self t sp
  · intro stack' hnone
    unfold refGet
    rw [hnone]
  · intro hnokey sp'
    unfold refSet
    simp only
    rw [refSetLoop_count live t sp' _ hwf]
    rw [specsOf_eq_nil_of_no_key hnokey]
    simp

/-- C4, witness: the amended read/write theorem at a concrete signal with a
previously registered second specifier. -/
theorem C4_read_then_write_witness :
    ((∀ sp', ((refSet (fun _ => true)
        (refGet [⟨some 7, some "a"⟩] (⟨3, [(7, ["b"])]⟩ : RefState Nat)).1 9).2).count (7, sp')
        = if sp' ∈ specsOf (refGet [⟨some 7, some "a"⟩]
            (⟨3, [(7, ["b"])]⟩ : RefState Nat)).1.deps 7 then 1 else 0)
    ∧ "a" ∈ specsOf (refGet [⟨some 7, some "a"⟩]
        (⟨3, [(7, ["b"])]⟩ : RefState Nat)).1.deps 7
    ∧ (∀ stack' : List ReactiveCtx, stack'.getLast? = none →
        (refGet stack' (⟨3, [(7, ["b"])]⟩ : RefState Nat)).1 = ⟨3, [(7, ["b"])]⟩)
    ∧ ((∀ sps, (7, sps) ∉ [(7, ["b"])]) →
        ∀ sp', ((refSet (fun _ => true) (⟨3, [(7, ["b"])]⟩ : RefState Nat) 9).2).count (7, sp') = 0)) :=
  C4_read_then_write (fun _ => true) [⟨some 7, some "a"⟩] 7 "a" ⟨3, [(7, ["b"])]⟩ 9
    (by constructor
        · simp
        · intro e he
          simp at he
          subst he
          simp)
    rfl rfl

/-! #### Claim C7 -/

/-- C7: after a write to a `Ref` completes, every subscriber remaining in
its dependency map is in use, the map is exactly the live entries in order,
and a target that was dead during the write was removed and received no
`update` call. -/
theorem C7_dead_subscriber_pruning {V : Type} (live : Nat → Bool)
    (s : RefState V) (x : V) :
    (∀ e ∈ (refSet live s x).1.deps, live e.1 = true)
    ∧ (refSet live s x).1.deps = s.deps.filter (fun e => live e.1)
    ∧ (∀ t sp, live t = false → (t, sp) ∉ (refSet live s x).2)
    ∧ (refSet live s x).1.value = x := by
  have h := refSetLoop_prune live s.deps
  exact ⟨h.1, h.2.1, h.2.2, rfl⟩

/-- C7, witness: pruning at a concrete write: target `1` is dead, target `2`
live. -/
theorem C7_dead_subscriber_pruning_witness :
    (∀ e ∈ (refSet (fun t => t ≠ 1)
        (⟨0, [(1, ["a"]), (2, ["b"])]⟩ : RefState Nat) 5).1.deps, (fun t => decide (t ≠ 1)) e.1 = true)
    ∧ (refSet (fun t => t ≠ 1) (⟨0, [(1, ["a"]), (2, ["b"])]⟩ : RefState Nat) 5).1.deps
        = [(1, ["a"]), (2, ["b"])].filter (fun e => decide (e.1 ≠ 1))
    ∧ (∀ t sp, (decide (t ≠ 1)) = false →
        (t, sp) ∉ (refSet (fun t => t ≠ 1) (⟨0, [(1, ["a"]), (2, ["b"])]⟩ : RefState Nat) 5).2)
    ∧ (refSet (fun t => t ≠ 1) (⟨0, [(1, ["a"]), (2, ["b"])]⟩ : RefState Nat) 5).1.value = 5 :=
  C7_dead_subscriber_pruning (fun t => t ≠ 1) ⟨0, [(1, ["a"]), (2, ["b"])]⟩ 5

/-! ### `computed(getter)` (`reactive.ts` lines 98-133)

The closure state of one `computed` over one upstream `Ref`, specialised to
a getter `f` of the upstream value.  `registered` records whether the
computed's internal target has been added to the upstream ref's deps (that
happens when the getter first runs inside the pushed reactive context);
`signalVal` is the internal counter signal; `getterRuns` counts invocations
of the user getter.  The computed target stays in use (its cleanup runs only
at component teardown, outside this fragment). -/

structure ComputedState (V : Type) where
  upVal : V
  registered : Bool
  isDirty : Bool
  innerValue : V
  signalVal : Nat
  getterRuns : Nat
deriving Repr

/-- Freshly created computed: dirty, unregistered, nothing cached.  The
uninitialised `innerValue` slot is an arbitrary default `d`. -/
def computedInit {V : Type} (up0 d : V) : ComputedState V :=
  ⟨up0, false, true, d, 0, 0⟩

/-- The `get value()` body: touch the signal, serve the cache unless dirty,
otherwise run the getter inside a fresh reactive context (registering the
target on the upstream ref), cache and clear the dirty bit. -/
def computedRead {V : Type} (f : V → V) (s : ComputedState V) :
    ComputedState V × V :=
  if s.isDirty = false then (s, s.innerValue)
  else
    ({ s with
        isDirty := false
        innerValue := f s.upVal
        registered := true
        getterRuns := s.getterRuns + 1 }, f s.upVal)

/-- Writing the upstream ref: store the value; when the computed target is
registered, the ref's setter calls its `update`, which marks it dirty and
bumps the counter signal. -/
def upstreamWrite {V : Type} (s : ComputedState V) (x : V) : ComputedState V :=
  if s.registered = true
  then { s with upVal := x, isDirty := true, signalVal := s.signalVal + 1 }
  else { s with upVal := x }

/-- `n` consecutive reads, keeping only the state. -/
def computedReadN {V : Type} (f : V → V) : Nat → ComputedState V → ComputedState V
  | 0, s => s
  | n + 1, s => computedReadN f n (computedRead f s).1

theorem computedRead_clean {V : Type} (f : V → V) {s : ComputedState V}
    (h : s.isDirty = false) : computedRead f s = (s, s.innerValue) := by
  unfold computedRead
  rw [if_pos h]

theorem computedReadN_clean {V : Type} (f : V → V) {s : ComputedState V}
    (h : s.isDirty = false) : ∀ n, computedReadN f n s = s := by
  intro n
  induction n with
  | zero => rfl
  | succ n ih =>
    unfold computedReadN
    rw [computedRead_clean f h]
    exact ih

theorem computedRead_dirty {V : Type} (f : V → V) {s : ComputedState V}
    (h : s.isDirty = true) :
    computedRead f s
      = ({ s with
            isDirty := false
            innerValue := f s.upVal
            registered := true
            getterRuns := s.getterRuns + 1 }, f s.upVal) := by
  unfold computedRead
  rw [if_neg (by rw [h]; simp)]

/-! #### Claim C5 -/

/-- C5: starting dirty (fresh or just invalidated), the first of `N ≥ 1`
consecutive reads runs the getter exactly once and the remaining reads serve
the cache; a write to the upstream dependency marks the computed dirty
again, and the next read then re-runs the getter exactly once, yielding the
value of the new upstream state. -/
theorem C5_computed_lazy {V : Type} (f : V → V) (s : ComputedState V) (x : V)
    (n : Nat) (hdirty : s.isDirty = true) (hn : 1 ≤ n) :
    ((computedRead f s).1).getterRuns = s.getterRuns + 1
    ∧ (computedRead f s).2 = f s.upVal
    ∧ (computedReadN f n s) = (computedRead f s).1
    ∧ (computedReadN f n s).getterRuns = s.getterRuns + 1
    ∧ (upstreamWrite (computedReadN f n s) x).isDirty = true
    ∧ (upstreamWrite (computedReadN f n s) x).getterRuns = s.getterRuns + 1
    ∧ ((computedRead f (upstreamWrite (computedReadN f n s) x)).1).getterRuns
        = s.getterRuns + 2
    ∧ (computedRead f (upstreamWrite (computedReadN f n s) x)).2 = f x := by
  have h1 := computedRead_dirty f hdirty
  have hclean : ((computedRead f s).1).isDirty = false := by rw [h1]
  have hN : computedReadN f n s = (computedRead f s).1 := by
    obtain ⟨m, rfl⟩ : ∃ m, n = m + 1 := ⟨n - 1, by omega⟩
    unfold computedReadN
    exact computedReadN_clean f hclean m
  have hreg : ((computedRead f s).1).registered = true := by rw [h1]
  have hW : upstreamWrite (computedReadN f n s) x
      = { (computedRead f s).1 with
          upVal := x
          isDirty := true
          signalVal := ((computedRead f s).1).signalVal + 1 } := by
    rw [hN]
    unfold upstreamWrite
    rw [if_pos hreg]
  have hWdirty : (upstreamWrite (computedReadN f n s) x).isDirty = true := by
    rw [hW]
  have h2 := computedRead_dirty f hWdirty
  refine ⟨by rw [h1], by rw [h1], hN, ?_, hWdirty, ?_, ?_, ?_⟩
  · rw [hN, h1]
  · rw [hW, h1]
  · rw [h2, hW, h1]
  · rw [h2, hW]

/-- C5, witness: a computed doubling a ref, read three times from creation,
then invalidated by an upstream write and read again. -/
theorem C5_computed_lazy_witness :
    ((computedRead (fun v => 2 * v) (computedInit 4 0)).1).getterRuns = 0 + 1
    ∧ (computedRead (fun v => 2 * v) (computedInit 4 0)).2 = 2 * 4
    ∧ (computedReadN (fun v => 2 * v) 3 (computedInit 4 0))
        = (computedRead (fun v => 2 * v) (computedInit 4 0)).1
    ∧ (computedReadN (fun v => 2 * v) 3 (computedInit 4 0)).getterRuns = 0 + 1
    ∧ (upstreamWrite (computedReadN (fun v => 2 * v) 3 (computedInit 4 0)) 5).isDirty = true
    ∧ (upstreamWrite (computedReadN (fun v => 2 * v) 3 (computedInit 4 0)) 5).getterRuns = 0 + 1
    ∧ ((computedRead (fun v => 2 * v)
        (upstreamWrite (computedReadN (fun v => 2 * v) 3 (computedInit 4 0)) 5)).1).getterRuns
        = 0 + 2
    ∧ (computedRead (fun v => 2 * v)
        (upstreamWrite (computedReadN (fun v => 2 * v) 3 (computedInit 4 0)) 5)).2 = 2 * 5 :=
  C5_computed_lazy (fun v => 2 * v) (computedInit 4 0) 5 3 rfl (by decide)

/-! ### `watch` (`reactive.ts` lines 179-223)

The closure state of one watcher.  The getter's successive values are
supplied as arguments (the getter itself has no scheduler-visible effect
beyond dependency registration); `queueCalls` records the
`queueTask(taskRunner, priority)` invocations made by the watcher's
`target.update`. -/

inductive WPriority where
  | immediate
  | high
  | middle
  | low
deriving DecidableEq, Repr

structure WatchState (V : Type) where
  isFirstRun : Bool
  oldValue : Option V
  callbackRuns : Nat
  getterRuns : Nat
  queueCalls : List WPriority
deriving DecidableEq, Repr

/-- The `taskRunner` body: evaluate the getter inside the reactive context,
then `(!isFirstRun || priority === Priority.Immediate) && callback(...)`,
then shift `oldValue` and clear `isFirstRun`. -/
def taskRunner {V : Type} (prio : WPriority) (v : V) (s : WatchState V) :
    WatchState V :=
  let s1 := { s with getterRuns := s.getterRuns + 1 }
  let s2 := if s1.isFirstRun = false ∨ prio = WPriority.immediate
    then { s1 with callbackRuns := s1.callbackRuns + 1 } else s1
  { s2 with oldValue := some v, isFirstRun := false }

/-- `watch(...)`: the task runner is invoked once, synchronously, right
after the target is created. -/
def watchInit {V : Type} (prio : WPriority) (v0 : V) : WatchState V :=
  taskRunner prio v0 ⟨true, none, 0, 0, []⟩

/-- The watcher target's `update`: `queueTask(taskRunner, priority)`.  An
Immediate queue runs the task synchronously; the others only enqueue. -/
def watchNotify {V : Type} (prio : WPriority) (v : V) (s : WatchState V) :
    WatchState V :=
  let s1 := { s with queueCalls := s.queueCalls ++ [prio] }
  if prio = WPriority.immediate then taskRunner prio v s1 else s1

/-! #### Claim C6 -/

/-- C6, counterexample: with `priority: Immediate` the initial synchronous
evaluation performed by `watch` *does* invoke the user callback (the
first-run guard is bypassed for Immediate), refuting "for every priority
option ... does not invoke the user callback".  The repo's own test expects
`cb4.callCount === 1` right after registration. -/
theorem C6_counterexample :
    (watchInit WPriority.immediate (0 : Nat)).callbackRuns = 1
    ∧ ¬ (watchInit WPriority.immediate (0 : Nat)).callbackRuns = 0 := by
  constructor
  · rfl
  · intro h
    cases h

/-- C6 (amended): for every non-Immediate priority, `watch` synchronously
performs exactly one initial evaluation of the source that does not invoke
the user callback, stores the value as `oldValue`, and every subsequent
notification enqueues the task runner on the scheduler at the given
priority without running the callback synchronously; with `Immediate` the
initial evaluation does invoke the callback once. -/
theorem C6_watch_init {V : Type} (prio : WPriority) (v0 v : V)
    (s : WatchState V) (hprio : prio ≠ WPriority.immediate) :
    (watchInit prio v0).getterRuns = 1
    ∧ (watchInit prio v0).callbackRuns = 0
    ∧ (watchInit prio v0).oldValue = some v0
    ∧ (watchInit prio v0).isFirstRun = false
    ∧ (watchNotify prio v s).queueCalls = s.queueCalls ++ [prio]
    ∧ (watchNotify prio v s).callbackRuns = s.callbackRuns
    ∧ (watchInit WPriority.immediate v0).callbackRuns = 1 := by
  have hrun : watchInit prio v0
      = ⟨false, some v0, 0, 1, []⟩ := by
    unfold watchInit taskRunner
    simp [hprio]
  have hnot : watchNotify prio v s
      = { s with queueCalls := s.queueCalls ++ [prio] } := by
    unfold watchNotify
    rw [if_neg hprio]
  refine ⟨by rw [hrun], by rw [hrun], by rw [hrun], by rw [hrun],
    by rw [hnot], by rw [hnot], rfl⟩

/-- C6, witness: a Low-priority watcher at concrete values. -/
theorem C6_watch_init_witness :
    (watchInit WPriority.low (7 : Nat)).getterRuns = 1
    ∧ (watchInit WPriority.low (7 : Nat)).callbackRuns = 0
    ∧ (watchInit WPriority.low (7 : Nat)).oldValue = some 7
    ∧ (watchInit WPriority.low (7 : Nat)).isFirstRun = false
    ∧ (watchNotify WPriority.low (8 : Nat) (watchInit WPriority.low 7)).queueCalls
        = (watchInit WPriority.low (7 : Nat)).queueCalls ++ [WPriority.low]
    ∧ (watchNotify WPriority.low (8 : Nat) (watchInit WPriority.low 7)).callbackRuns
        = (watchInit WPriority.low (7 : Nat)).callbackRuns
    ∧ (watchInit WPriority.immediate (7 : Nat)).callbackRuns = 1 :=
  C6_watch_init WPriority.low 7 8 (watchInit WPriority.low 7) (by decide)

/-! ### Keyed list reconciliation (`html.ts` `#childrenFixer`, the
sequence → sequence branch, lines 991-1061)

Template instances are identified by `Nat` ids; an environment supplies each
instance's parsed-pattern identity (`originalDoc`), its diff key (`none`
embeds a missing or falsy key, which `strictSameAs` rejects), its `isInUse`
flag and its clone.  The DOM region the binding owns is `dom : List Nat`:
the mounted instances in order, with the binding's children anchor at the
end of the region — so `insertBefore(fixerArgs.anchorNode)` appends, and
inserting before an instance's self start anchor inserts before the
instance.  A `none` entry of `oldArr` is a slot the algorithm nulled out
(`oldList[idxInOld] = undefined as any`); JavaScript throws a `TypeError`
when a method is called on it (the `findIndex` callback and the trailing
unmount loop can do so), which the model records as `crashed = true`. -/

structure TplEnv where
  pat : Nat → Nat
  key : Nat → Option Nat
  inUse : Nat → Bool
  clone : Nat → Nat

/-- `Template.strictSameAs`: same parsed pattern, both keys truthy, keys
equal. -/
def strictSameAs (e : TplEnv) (a b : Nat) : Bool :=
  decide (e.pat a = e.pat b) && (e.key a).isSome && (e.key b).isSome
    && decide (e.key a = e.key b)

/-- `Template.cloneIfInUse`. -/
def cloneIfInUse (e : TplEnv) (i : Nat) : Nat :=
  if e.inUse i then e.clone i else i

def removeInst (dom : List Nat) (a : Nat) : List Nat := dom.erase a

/-- Insert `a` immediately before `b` (before `b`'s self start anchor);
with `b` absent this inserts at the end of the region. -/
def insertBeforeInst (dom : List Nat) (a b : Nat) : List Nat :=
  dom.takeWhile (· ≠ b) ++ a :: dom.dropWhile (· ≠ b)

/-- Insert `a` immediately after `b` (before `b`'s self end anchor's next
sibling). -/
def insertAfterInst (dom : List Nat) (a b : Nat) : List Nat :=
  dom.takeWhile (· ≠ b) ++
    (match dom.dropWhile (· ≠ b) with
      | [] => [a]
      | b' :: rest => b' :: a :: rest)

/-- `Template.moveToBefore`. -/
def moveInstToBefore (dom : List Nat) (a b : Nat) : List Nat :=
  insertBeforeInst (removeInst dom a) a b

/-- `Template.moveToAfter`. -/
def moveInstToAfter (dom : List Nat) (a b : Nat) : List Nat :=
  insertAfterInst (removeInst dom a) a b

structure DiffState where
  oldArr : List (Option Nat)
  oldStartIdx : Int
  oldEndIdx : Int
  newStartIdx : Int
  newEndIdx : Int
  oldStartTpl : Option Nat
  oldEndTpl : Option Nat
  newStartTpl : Option Nat
  newEndTpl : Option Nat
  dom : List Nat
  mounted : List Nat
  unmounted : List Nat
  updated : List Nat
  crashed : Bool
deriving DecidableEq, Repr

/-- JavaScript array read `l[i]` (undefined outside the bounds). -/
def listGetI {α : Type} (l : List α) (i : Int) : Option α :=
  if i < 0 then none else l[i.toNat]?

/-- Read of the (nullable) old list. -/
def oldGet (l : List (Option Nat)) (i : Int) : Option Nat :=
  (listGetI l i).join

/-- `oldList[idxInOld] = undefined`. -/
def listSetI (l : List (Option Nat)) (i : Int) (v : Option Nat) :
    List (Option Nat) :=
  if i < 0 then l else l.set i.toNat v

/-- `oldList.findIndex(tpl => tpl.strictSameAs(newStartTpl))`: `none` is the
`TypeError` thrown when the scan reaches a nulled slot; `some (-1)` is "not
found". -/
def findIdxInOld (e : TplEnv) (b : Nat) : List (Option Nat) → Option Int
  | [] => some (-1)
  | none :: _ => none
  | some a :: rest =>
    if strictSameAs e a b then some 0
    else (findIdxInOld e b rest).map (fun i => if i = -1 then -1 else i + 1)

/-- One iteration of the two-pointer loop, in the source's branch order. -/
def diffStep (e : TplEnv) (newArr : List Nat) (st : DiffState) : DiffState :=
  match st.oldStartTpl with
  | none =>
    { st with
      oldStartIdx := st.oldStartIdx + 1
      oldStartTpl := oldGet st.oldArr (st.oldStartIdx + 1) }
  | some osT =>
    match st.oldEndTpl with
    | none =>
      { st with
        oldEndIdx := st.oldEndIdx - 1
        oldEndTpl := oldGet st.oldArr (st.oldEndIdx - 1) }
    | some oeT =>
      match st.newStartTpl, st.newEndTpl with
      | some nsT, some neT =>
        if strictSameAs e osT nsT then
          { st with
            updated := st.updated ++ [osT]
            oldStartIdx := st.oldStartIdx + 1
            oldStartTpl := oldGet st.oldArr (st.oldStartIdx + 1)
            newStartIdx := st.newStartIdx + 1
            newStartTpl := listGetI newArr (st.newStartIdx + 1) }
        else if strictSameAs e oeT neT then
          { st with
            updated := st.updated ++ [oeT]
            oldEndIdx := st.oldEndIdx - 1
            oldEndTpl := oldGet st.oldArr (st.oldEndIdx - 1)
            newEndIdx := st.newEndIdx - 1
            newEndTpl := listGetI newArr (st.newEndIdx - 1) }
        else if strictSameAs e osT neT then
          { st with
            dom := moveInstToAfter st.dom osT oeT
            updated := st.updated ++ [osT]
            oldStartIdx := st.oldStartIdx + 1
            oldStartTpl := oldGet st.oldArr (st.oldStartIdx + 1)
            newEndIdx := st.newEndIdx - 1
            newEndTpl := listGetI newArr (st.newEndIdx - 1) }
        else if strictSameAs e oeT nsT then
          { st with
            dom := moveInstToBefore st.dom oeT osT
            updated := st.updated ++ [oeT]
            oldEndIdx := st.oldEndIdx - 1
            oldEndTpl := oldGet st.oldArr (st.oldEndIdx - 1)
            newStartIdx := st.newStartIdx + 1
            newStartTpl := listGetI newArr (st.newStartIdx + 1) }
        else
          match findIdxInOld e nsT st.oldArr with
          | none => { st with crashed := true }
          | some idx =>
            if idx > 0 then
              match oldGet st.oldArr idx with
              | none => { st with crashed := true }
              | some tplMv =>
                { st with
                  dom := moveInstToBefore st.dom tplMv osT
                  updated := st.updated ++ [tplMv]
                  oldArr := listSetI st.oldArr idx none
                  newStartIdx := st.newStartIdx + 1
                  newStartTpl := listGetI newArr (st.newStartIdx + 1) }
            else
              { st with
                dom := insertBeforeInst st.dom (cloneIfInUse e nsT) osT
                mounted := st.mounted ++ [cloneIfInUse e nsT]
                newStartIdx := st.newStartIdx + 1
                newStartTpl := listGetI newArr (st.newStartIdx + 1) }
      | _, _ => { st with crashed := true }

/-- The `while (oldStartIdx <= oldEndIdx && newStartIdx <= newEndIdx)`
loop, fuel-indexed (`none` = out of fuel). -/
def diffLoop (e : TplEnv) (newArr : List Nat) :
    Nat → DiffState → Option DiffState
  | 0, _ => none
  | fuel + 1, st =>
    if st.crashed then some st
    else if st.oldStartIdx ≤ st.oldEndIdx ∧ st.newStartIdx ≤ st.newEndIdx then
      diffLoop e newArr fuel (diffStep e newArr st)
    else some st

/-- The trailing bulk mount: `newList[i].cloneIfInUse().mountTo(this,
oldStartTpl ? oldStartTpl.#selfStartAnchor : fixerArgs.anchorNode)` for
`i = newStartIdx .. newEndIdx`. -/
def mountLoop (e : TplEnv) (newArr : List Nat) (anchor : Option Nat) :
    Nat → Int → DiffState → DiffState
  | 0, _, st => st
  | k + 1, i, st =>
    match listGetI newArr i with
    | none => { st with crashed := true }
    | some tpl =>
      mountLoop e newArr anchor k (i + 1)
        { st with
          dom := match anchor with
            | some b => insertBeforeInst st.dom (cloneIfInUse e tpl) b
            | none => st.dom ++ [cloneIfInUse e tpl]
          mounted := st.mounted ++ [cloneIfInUse e tpl] }

/-- The trailing bulk unmount: `oldList[i].unmount()` for
`i = oldStartIdx .. oldEndIdx` (a nulled slot throws). -/
def unmountLoop : Nat → Int → DiffState → DiffState
  | 0, _, st => st
  | k + 1, i, st =>
    match oldGet st.oldArr i with
    | none => { st with crashed := true }
    | some tpl =>
      unmountLoop k (i + 1)
        { st with
          dom := removeInst st.dom tpl
          unmounted := st.unmounted ++ [tpl] }

/-- The two post-loop branches of the reconciliation. -/
def diffFinish (e : TplEnv) (newArr : List Nat) (st : DiffState) : DiffState :=
  if st.crashed then st
  else if st.oldEndIdx < st.oldStartIdx ∧ st.newStartIdx ≤ st.newEndIdx then
    mountLoop e newArr st.oldStartTpl
      (st.newEndIdx - st.newStartIdx + 1).toNat st.newStartIdx st
  else if st.newEndIdx < st.newStartIdx ∧ st.oldStartIdx ≤ st.oldEndIdx then
    unmountLoop (st.oldEndIdx - st.oldStartIdx + 1).toNat st.oldStartIdx st
  else st

/-- The whole sequence → sequence run of `#childrenFixer`: the cursor and
cached-template initialisation, the loop, and the trailing bulk phase. -/
def runChildrenDiff (e : TplEnv) (oldList newList dom0 : List Nat)
    (fuel : Nat) : Option DiffState :=
  let st0 : DiffState :=
    { oldArr := oldList.map some
      oldStartIdx := 0
      oldEndIdx := (oldList.length : Int) - 1
      newStartIdx := 0
      newEndIdx := (newList.length : Int) - 1
      oldStartTpl := listGetI oldList 0
      oldEndTpl := listGetI oldList ((oldList.length : Int) - 1)
      newStartTpl := listGetI newList 0
      newEndTpl := listGetI newList ((newList.length : Int) - 1)
      dom := dom0
      mounted := []
      unmounted := []
      updated := []
      crashed := false }
  (diffLoop e newList fuel st0).map (diffFinish e newList)

/-! #### Claim C1 -/

/-- Instance environment for the spec's own example scenario: old instances
`1, 2, 3` carry keys `1, 2, 3`; the re-render's fresh templates
`11, 12, 13, 14` carry keys `3, 1, 2, 4`.  All share one parsed pattern;
the fresh templates are not in use, so `cloneIfInUse` returns them as-is. -/
def envC1 : TplEnv :=
  { pat := fun _ => 0
    key := fun i =>
      if i = 1 then some 1 else if i = 2 then some 2 else if i = 3 then some 3
      else if i = 11 then some 3 else if i = 12 then some 1
      else if i = 13 then some 2 else if i = 14 then some 4 else none
    inUse := fun _ => false
    clone := fun i => i }

/-- C1, evaluation at the failing input (the spec's own example):
`[{id:1},{id:2},{id:3}] → [{id:3},{id:1},{id:2},{id:4}]`.  The loop moves
instance `3` to the front and matches `1` and `2` in place, leaving
`oldStartTpl = instance 3`; the trailing bulk mount then inserts the fresh
key-4 instance *before instance 3's self start anchor* — the front of the
region — so the mounted key order ends as `[4, 3, 1, 2]`, not the claimed
`[3, 1, 2, 4]`.  (Reuse itself does hold here: nothing is unmounted and
exactly the one fresh instance is mounted.) -/
theorem C1_keyed_diff_failing_input :
    ((runChildrenDiff envC1 [1, 2, 3] [11, 12, 13, 14] [1, 2, 3] 12).map
        (fun st => (st.dom, st.mounted, st.unmounted, st.crashed)))
      = some ([14, 3, 1, 2], [14], [], false)
    ∧ [14, 3, 1, 2].map (fun i => (envC1.key i).getD 0) = [4, 3, 1, 2]
    ∧ ([4, 3, 1, 2] : List Nat) ≠ [3, 1, 2, 4] := by
  decide

/-! ### `Template.unmount` (`html.ts` lines 204-216)

A template instance and the instances it currently contains form a tree (the
`#children` set with `#parent` back-references).  `docInit` is whether
`#doc` has been created (`isInitialized`), `docContent` the nodes currently
inside `#doc`, `rootNodes` the recorded root nodes, `unmountFixers` the ids
of the registered unmounting fixers.  `unmount` on an in-use instance
appends the root nodes back into `#doc`, unmounts every child (an in-use
child removes itself from the parent's `#children` set and clears its
parent pointer; a child that is not in use is left untouched by its own
early return, and stays in the set), and then runs the unmounting fixers. -/

inductive Tpl where
  | node (docInit : Bool) (docContent rootNodes : List Nat)
      (children : List Tpl) (unmountFixers : List Nat) : Tpl
deriving Repr

def Tpl.docInit : Tpl → Bool
  | .node b _ _ _ _ => b

def Tpl.docContent : Tpl → List Nat
  | .node _ c _ _ _ => c

def Tpl.rootNodes : Tpl → List Nat
  | .node _ _ r _ _ => r

def Tpl.childTpls : Tpl → List Tpl
  | .node _ _ _ cs _ => cs

def Tpl.unmountFixers : Tpl → List Nat
  | .node _ _ _ _ f => f

/-- `Template.isInUse`: `!!this.#doc && this.#doc.childNodes.length === 0`. -/
def Tpl.isInUse (t : Tpl) : Bool := t.docInit && t.docContent.isEmpty

/-- `Template.unmount`: returns the instance's new state and the unmounting
fixer runs it triggered, in order. -/
def Tpl.unmount : Tpl → Tpl × List Nat
  | .node docInit docContent rootNodes children fixers =>
    if docInit && docContent.isEmpty then
      (.node docInit (docContent ++ rootNodes) rootNodes
          (children.filter (fun c => !c.isInUse)) fixers,
        (children.attach.map (fun c => (Tpl.unmount c.1).2)).flatten ++ fixers)
    else (.node docInit docContent rootNodes children fixers, [])
termination_by t => sizeOf t
decreasing_by
  simp_wf
  have := List.sizeOf_lt_of_mem c.2
  omega

/-! #### Claim C10 -/

/-- C10: `unmount` on an instance that is not in use changes nothing — its
document, children set and fixer state are untouched and no unmounting
fixer runs; and (for an instance whose recorded root nodes are non-empty
whenever it is initialized, which `#init` guarantees by adding the two self
anchors) `unmount` is idempotent: the second of two consecutive calls is
always the no-op. -/
theorem C10_unmount_noop_and_idempotent (t : Tpl)
    (hwf : t.isInUse = true → t.rootNodes ≠ []) :
    (t.isInUse = false → Tpl.unmount t = (t, []))
    ∧ Tpl.unmount (Tpl.unmount t).1 = ((Tpl.unmount t).1, []) := by
  obtain ⟨docInit, docContent, rootNodes, children, fixers⟩ := t
  constructor
  · intro hnot
    unfold Tpl.unmount
    rw [if_neg]
    intro hcond
    rw [show Tpl.isInUse (Tpl.node docInit docContent rootNodes children fixers)
        = (docInit && docContent.isEmpty) from rfl, hcond] at hnot
    cases hnot
  · by_cases hin : (docInit && docContent.isEmpty) = true
    · have hroot : rootNodes ≠ [] := by
        apply hwf
        rw [show Tpl.isInUse (Tpl.node docInit docContent rootNodes children fixers)
          = (docInit && docContent.isEmpty) from rfl, hin]
      have h1 : (Tpl.unmount (Tpl.node docInit docContent rootNodes children fixers)).1
          = .node docInit (docContent ++ rootNodes) rootNodes
              (children.filter (fun c => !c.isInUse)) fixers := by
        unfold Tpl.unmount
        rw [if_pos hin]
      rw [h1]
      unfold Tpl.unmount
      rw [if_neg]
      intro hcond
      have hne : (docContent ++ rootNodes).isEmpty = false := by
        have : docContent ++ rootNodes ≠ [] := by
          intro hc
          exact hroot (List.append_eq_nil.1 hc).2
        simpa [List.isEmpty_iff] using this
      rw [hne] at hcond
      simp at hcond
    · have h1 : Tpl.unmount (Tpl.node docInit docContent rootNodes children fixers)
          = (.node docInit docContent rootNodes children fixers, []) := by
        unfold Tpl.unmount
        rw [if_neg hin]
      rw [h1, h1]

/-- C10, witness: a concrete mounted instance with one mounted child and one
detached child; the first `unmount` retrieves the nodes and runs the child's
and its own unmounting fixers, the second call is the no-op. -/
theorem C10_unmount_witness :
    ((Tpl.node true [] [10, 11]
        [Tpl.node true [] [20] [] [88], Tpl.node true [5] [20] [] [77]]
        [99]).isInUse = false →
      Tpl.unmount (Tpl.node true [] [10, 11]
          [Tpl.node true [] [20] [] [88], Tpl.node true [5] [20] [] [77]] [99])
        = (Tpl.node true [] [10, 11]
            [Tpl.node true [] [20] [] [88], Tpl.node true [5] [20] [] [77]] [99], []))
    ∧ Tpl.unmount (Tpl.unmount (Tpl.node true [] [10, 11]
          [Tpl.node true [] [20] [] [88], Tpl.node true [5] [20] [] [77]] [99])).1
        = ((Tpl.unmount (Tpl.node true [] [10, 11]
            [Tpl.node true [] [20] [] [88], Tpl.node true [5] [20] [] [77]] [99])).1, []) :=
  C10_unmount_noop_and_idempotent
    (Tpl.node true [] [10, 11]
      [Tpl.node true [] [20] [] [88], Tpl.node true [5] [20] [] [77]] [99])
    (fun _ => by decide)

/-! ### SSR serialization (`ssr/htmlSSR.ts`)

Markup is modelled as `List Char`.  `SSRTemplate.toString(dId)` captures
`const id = templateId++`, seeds `#chunks` with the self start anchor
comment, lets `parse()` push the rendered body chunks, pushes the self end
anchor comment and joins; the model takes the joined body as a parameter.
`#onText` renders each dynamic children slot (lines 445-459): a nested
template via `value.toString(dId)`, an array wrapped in list anchors with
each member serialized via `toString()` (root `dId`, own fresh id), and any
other value as sanitized text (an empty result replaced by one space)
wrapped in text anchors; every case is followed by the shared children
anchor comment `<!--^-->`. -/

def natChars (n : Nat) : List Char := Nat.toDigits 10 n

def commentChars (content : List Char) : List Char :=
  "<!--".data ++ content ++ "-->".data

def selfStartContent (id : Nat) (dId : List Char) : List Char :=
  '[' :: (natChars id ++ '-' :: dId)

def selfEndContent (id : Nat) (dId : List Char) : List Char :=
  natChars id ++ '-' :: dId ++ [']']

def listStartContent (id : Nat) (dId : List Char) : List Char :=
  '[' :: '[' :: (natChars id ++ '-' :: dId)

def listEndContent (id : Nat) (dId : List Char) : List Char :=
  natChars id ++ '-' :: dId ++ [']', ']']

def textStartContent (id : Nat) (dId : List Char) : List Char :=
  '%' :: (natChars id ++ '-' :: dId)

def textEndContent (id : Nat) (dId : List Char) : List Char :=
  natChars id ++ '-' :: dId ++ ['%']

/-- The shared children anchor marker `<!--^-->` (`childrenAnchor = '^'`). -/
def childrenAnchorComment : List Char := commentChars ['^']

/-- `utils.sanitizeHtml` on one character. -/
def escapeChar (ch : Char) : List Char :=
  if ch = '&' then "&amp;".data
  else if ch = '<' then "&lt;".data
  else if ch = '>' then "&gt;".data
  else if ch = '"' then "&quot;".data
  else if ch = Char.ofNat 39 then "&apos;".data
  else [ch]

def sanitizeHtmlChars (s : List Char) : List Char := (s.map escapeChar).flatten

/-- `SSRTemplate.toString(dId)`: `id` is the `templateId++` value captured on
entry (the end anchor reuses the same `id` however many ids the body's
nested serializations consume); `body` is the joined chunks `parse()`
pushes between the two anchors. -/
def ssrToString (id : Nat) (dId : List Char) (body : List Char) : List Char :=
  commentChars (selfStartContent id dId) ++ body
    ++ commentChars (selfEndContent id dId)

/-- The value one dynamic children slot resolves to during serialization. -/
inductive SSRValue where
  | tpl (body : List Char)
  | list (bodies : List (List Char))
  | scalar (s : List Char)

/-- Module-level id counters of `htmlSSR.ts`. -/
structure SSRCounters where
  templateId : Nat
  textWrapperId : Nat
deriving DecidableEq, Repr

/-- `value.map((tpl : SSRTemplate) => tpl.toString()).join('')`: each member
serialized at the root `dId` with its own fresh template id. -/
def renderMembers : List (List Char) → Nat → List Char × Nat
  | [], tid => ([], tid)
  | b :: rest, tid =>
    let out := renderMembers rest (tid + 1)
    (ssrToString tid [] b ++ out.1, out.2)

/-- The `currentValue` (plus trailing children anchor) `#onText` splices in
for one dynamic part, with the counter state threaded through. -/
def renderDynamicPart (v : SSRValue) (dId : List Char) (c : SSRCounters) :
    List Char × SSRCounters :=
  match v with
  | .tpl body =>
    (ssrToString c.templateId dId body ++ childrenAnchorComment,
      { c with templateId := c.templateId + 1 })
  | .list bodies =>
    (commentChars (listStartContent c.templateId dId)
        ++ (renderMembers bodies (c.templateId + 1)).1
        ++ commentChars (listEndContent c.templateId dId)
        ++ childrenAnchorComment,
      { c with templateId := (renderMembers bodies (c.templateId + 1)).2 })
  | .scalar s =>
    ((commentChars (textStartContent c.textWrapperId dId)
        ++ (if sanitizeHtmlChars s = [] then [' '] else sanitizeHtmlChars s)
        ++ commentChars (textEndContent c.textWrapperId dId))
        ++ childrenAnchorComment,
      { c with textWrapperId := c.textWrapperId + 1 })

/-! #### Claim C8 -/

/-- C8: `toString(dId)` output begins with the self start anchor comment
`[id-dId` and ends with the matching `id-dId]` carrying the same decimal
id; an array children binding is additionally wrapped in the list anchors
`[[id-dId` / `id-dId]]`; a scalar text binding is wrapped in the text
anchors `%textId-dId` / `textId-dId%`; and every dynamic children slot is
followed by the shared children anchor marker comment. -/
theorem C8_ssr_anchor_grammar (id : Nat) (dId body s : List Char)
    (bodies : List (List Char)) (c : SSRCounters) :
    commentChars (selfStartContent id dId) <+: ssrToString id dId body
    ∧ commentChars (selfEndContent id dId) <:+ ssrToString id dId body
    ∧ (∃ mid, (renderDynamicPart (.list bodies) dId c).1
        = commentChars (listStartContent c.templateId dId) ++ mid
          ++ commentChars (listEndContent c.templateId dId)
          ++ childrenAnchorComment)
    ∧ (∃ strv, strv ≠ [] ∧ (renderDynamicPart (.scalar s) dId c).1
        = commentChars (textStartContent c.textWrapperId dId) ++ strv
          ++ commentChars (textEndContent c.textWrapperId dId)
          ++ childrenAnchorComment)
    ∧ commentChars (selfStartContent c.templateId dId)
        <+: (renderDynamicPart (.tpl body) dId c).1
    ∧ childrenAnchorComment <:+ (renderDynamicPart (.tpl body) dId c).1
    ∧ childrenAnchorComment <:+ (renderDynamicPart (.list bodies) dId c).1
    ∧ childrenAnchorComment <:+ (renderDynamicPart (.scalar s) dId c).1 := by
  refine ⟨⟨body ++ commentChars (selfEndContent id dId), by
      simp [ssrToString, List.append_assoc]⟩,
    ⟨commentChars (selfStartContent id dId) ++ body, by
      simp [ssrToString, List.append_assoc]⟩,
    ⟨(renderMembers bodies (c.templateId + 1)).1, by
      simp [renderDynamicPart, List.append_assoc]⟩,
    ⟨if sanitizeHtmlChars s = [] then [' '] else sanitizeHtmlChars s,
      by split <;> simp_all,
      by simp [renderDynamicPart, List.append_assoc]⟩,
    ⟨body ++ commentChars (selfEndContent c.templateId dId) ++ childrenAnchorComment,
      by simp [renderDynamicPart, ssrToString, List.append_assoc]⟩,
    ⟨commentChars (selfStartContent c.templateId dId) ++ body
        ++ commentChars (selfEndContent c.templateId dId),
      by simp [renderDynamicPart, ssrToString, List.append_assoc]⟩,
    ⟨commentChars (listStartContent c.templateId dId)
        ++ (renderMembers bodies (c.templateId + 1)).1
        ++ commentChars (listEndContent c.templateId dId),
      by simp [renderDynamicPart, List.append_assoc]⟩,
    ⟨commentChars (textStartContent c.textWrapperId dId)
        ++ (if sanitizeHtmlChars s = [] then [' '] else sanitizeHtmlChars s)
        ++ commentChars (textEndContent c.textWrapperId dId),
      by simp [renderDynamicPart, List.append_assoc]⟩⟩

/-! ### Hydration (`html.ts` `Template.hydrate`, lines 279-308, the walk
`#hydrateNodes` / `#hydrateTplListChildren` / `#hydrateTplChildren` /
`#hydrateDynamicTextChildren`, `#parseAttributes` and the hydration-mode
runs of the bound mounting fixers, lines 938-990)

The server-rendered tree is modelled structurally:

* an attribute value is a list of literal and placeholder segments (the
  compiler's `$$--dynamicN--$$` tokens), so the shared `bindingRE` cursor
  (`lastIndex`) becomes a segment index;
* a comment node carries the anchor kind its text matches: the six
  hydration anchor regexes are mutually exclusive and are modelled as
  constructors (`selfStart`/`selfEnd` with an optional `dId` — the
  `(\d*)` group may be empty —, `listStart`/`listEnd`, `textStart`/
  `textEnd` with a mandatory `dId`, the `^` children marker, anything
  else);
* `dynamicPartToGetterMap` values are either function interpolators
  (returning a scalar, a template with its own getter map, or an array of
  templates) or template values (`DomRef`s are rewritten to functions by
  the compiler before they reach a map).

Every observable write the walk or a fixer performs is emitted as a `Mut`;
the tree itself is read-only input.  The branches that run only outside
hydration (`previous.remove()`, `createTextNode` + `insertBefore`,
`mountTo`, `setAttribute`) emit the node mutation they would perform, so
that proving them unreachable under `isHydrating = true` is meaningful.
The development-mode `hydratingError` reporter only logs (spec section 7:
the diagnostic channel never throws), so mismatch branches emit nothing
and bind nothing, exactly like the source's early `return 0`. -/

inductive AttrSeg where
  | lit (s : String)
  | spec (n : Nat)
deriving DecidableEq, Repr

inductive CommentKind where
  | selfStart (id : Nat) (dId : Option Nat)
  | selfEnd (id : Nat) (dId : Option Nat)
  | listStart (id : Nat) (dId : Option Nat)
  | listEnd (id : Nat) (dId : Option Nat)
  | textStart (id : Nat) (dId : Nat)
  | textEnd (id : Nat) (dId : Nat)
  | childrenMark
  | other (s : String)
deriving DecidableEq, Repr

inductive DNode where
  | elem (tag : String) (attrs : List (String × List AttrSeg))
      (children : List DNode)
  | text (s : String)
  | comment (k : CommentKind)
deriving Repr

mutual
inductive HInterp where
  | func : HVal → HInterp
  | tplv : List (String × HInterp) → HInterp
inductive HVal where
  | scalar : String → HVal
  | tplv : List (String × HInterp) → HVal
  | listv : List (List (String × HInterp)) → HVal
end

/-- Observable writes of the binding engine. -/
inductive Mut where
  | removeAttr (name : String)
  | setAttr (name : String)
  | setProp (name : String)
  | addListener (name : String)
  | removeListener (name : String)
  | hostCall
  | insertNode
  | removeNode
  | moveNode
deriving DecidableEq, Repr

/-- Mutations that insert, remove or move a node of the tree. -/
def Mut.isNodeOp : Mut → Bool
  | .insertNode => true
  | .removeNode => true
  | .moveNode => true
  | _ => false

/-- What hydration is allowed to do: touch attributes, properties and
listeners — never the node sequence and never `setAttribute`. -/
def Mut.hydrationSafe : Mut → Bool
  | .insertNode => false
  | .removeNode => false
  | .moveNode => false
  | .setAttr _ => false
  | _ => true

/-- The placeholder string `$$--dynamicN--$$` for a decimal id. -/
def specStr (n : Nat) : String := "$$--dynamic" ++ toString n ++ "--$$"

/-- The specifier rebuilt from a hydration anchor's `dId` group (an empty
group yields `$$--dynamic--$$`, which no getter map contains). -/
def specStrOpt : Option Nat → String
  | some n => specStr n
  | none => "$$--dynamic" ++ "--$$"

/-- `bindingRE.exec` resumed from segment index `k`: the first placeholder
at or after `k`, with the index the shared `lastIndex` then points past. -/
def firstSpecFromAux : List AttrSeg → Nat → Option (Nat × Nat)
  | [], _ => none
  | .spec n :: _, k => some (n, k + 1)
  | .lit _ :: rest, k => firstSpecFromAux rest (k + 1)

def firstSpecFrom (segs : List AttrSeg) (k : Nat) : Option (Nat × Nat) :=
  firstSpecFromAux (segs.drop k) k

/-- All placeholders at or after segment index `k`. -/
def specsFrom (segs : List AttrSeg) (k : Nat) : List Nat :=
  ((segs.drop k).filterMap (fun s => match s with
    | .spec n => some n
    | .lit _ => none))

/-- A fixer registered in the mounting map, as its (pre-computed)
hydration-phase behaviour: attribute-family fixers emit a fixed mutation
list; a children fixer re-enters hydration. -/
inductive HFix where
  | consts (ms : List Mut)
  | childrenFix (spec : String) (docs : Option (List (List DNode)))
deriving Repr

def isFuncInterp : Option HInterp → Bool
  | some (.func _) => true
  | _ => false

def charsPrefixOf : List Char → List Char → Bool
  | [], _ => true
  | _ :: _, [] => false
  | a :: as, b :: bs => a == b && charsPrefixOf as bs

/-- `String.prototype.startsWith`, on the character data. -/
def strStartsWith (s p : String) : Bool := charsPrefixOf p.data s.data

/-- `String.prototype.endsWith`, on the character data. -/
def strEndsWith (s p : String) : Bool :=
  charsPrefixOf p.data.reverse s.data.reverse

/-- `#parseAttribute` on one attribute, in hydration mode when
`hyd = true`: returns the parse-time mutations, the mounting fixers it
binds (with their run-time emissions), and whether it removed the current
attribute from the live `NamedNodeMap`. -/
def parseAttrOne (env : List (String × HInterp)) (hyd : Bool) (name : String)
    (segs : List AttrSeg) : List Mut × List HFix × Bool :=
  if strStartsWith name "@" then
    match firstSpecFrom segs 0 with
    | none => ([], [], false)
    | some (n, _) =>
      ([],
        [HFix.consts
          (if isFuncInterp (env.lookup (specStr n)) then
            [Mut.removeListener (name.drop 1), Mut.addListener (name.drop 1),
              Mut.removeAttr name]
          else [])],
        false)
  else if name = "ref" then
    match firstSpecFrom segs 0 with
    | none => ([], [], false)
    | some (n, _) =>
      ([],
        [HFix.consts
          (if isFuncInterp (env.lookup (specStr n)) then
            [Mut.hostCall, Mut.removeAttr name]
          else [])],
        false)
  else if strStartsWith name "$$--" && strEndsWith name "--$$" then
    ([Mut.removeAttr name],
      [HFix.consts (if isFuncInterp (env.lookup name) then [Mut.hostCall] else [])],
      true)
  else
    -- property bindings fall through to the plain-attribute scan, resuming
    -- the shared regex cursor after the first placeholder they consumed
    let isProp := strStartsWith name ":" || strStartsWith name "?"
    let propOut : List HFix × Nat :=
      if isProp then
        match firstSpecFrom segs 0 with
        | none => ([], 0)
        | some (n, k') =>
          ([HFix.consts
            (if isFuncInterp (env.lookup (specStr n)) then
              Mut.removeAttr name ::
                (if hyd && strStartsWith name "?" then []
                 else [Mut.setProp (name.drop 1)])
            else [])], k')
      else ([], 0)
    let isHydNormal := !isProp && hyd && strStartsWith name "#"
    let parseMuts : List Mut := if isHydNormal then [Mut.removeAttr name] else []
    let attrName := if isHydNormal then name.drop 1 else name
    let specs := specsFrom segs propOut.2
    let attrFixes : List HFix :=
      if specs.isEmpty then []
      else specs.map (fun _ =>
        HFix.consts (if hyd then [] else [Mut.setAttr attrName]))
    (parseMuts, propOut.1 ++ attrFixes, isHydNormal)

/-- `#parseAttributes`: index walk over the live attribute map — removing
the current attribute shifts the rest down while `i` still advances, as in
the source. -/
def parseAttrs (env : List (String × HInterp)) (hyd : Bool) :
    Nat → Nat → List (String × List AttrSeg) → List Mut × List HFix
  | 0, _, _ => ([], [])
  | fuel + 1, i, attrs =>
    match attrs[i]? with
    | none => ([], [])
    | some (name, segs) =>
      let one := parseAttrOne env hyd name segs
      let attrs' := if one.2.2 then attrs.eraseIdx i else attrs
      let rest := parseAttrs env hyd fuel (i + 1) attrs'
      (one.1 ++ rest.1, one.2.1 ++ rest.2)

def isListEndComment : DNode → Bool
  | .comment (.listEnd _ _) => true
  | _ => false

def isSelfEndComment : DNode → Bool
  | .comment (.selfEnd _ _) => true
  | _ => false

def isChildrenMark : DNode → Bool
  | .comment .childrenMark => true
  | _ => false

def isTextDNode : DNode → Bool
  | .text _ => true
  | _ => false

def isTextEndComment : DNode → Bool
  | .comment (.textEnd _ _) => true
  | _ => false

/-- Whether `nodes[i]` is the entry list's first or last node — the
template's own self anchors, compared by identity in the source. -/
def atTopAnchor : Option Nat → Nat → Bool
  | some len, i => i == 0 || i == len - 1
  | none, _ => false

/-- `#hydrateTplListChildren`'s sibling scan: collect the member templates'
node lists (closing each at a self end anchor) until the list end anchor or
the end of the siblings; returns the docs and the number of nodes
consumed. -/
def scanTplList (nodes : List DNode) :
    Nat → Nat → List DNode → List (List DNode) → List (List DNode) × Nat
  | 0, _, _, docs => (docs, 0)
  | fuel + 1, i, tempDoc, docs =>
    match nodes[i]? with
    | none => (docs, 0)
    | some n =>
      if isListEndComment n then (docs, 0)
      else if isSelfEndComment n then
        let out := scanTplList nodes fuel (i + 1) [] (docs ++ [tempDoc ++ [n]])
        (out.1, out.2 + 1)
      else
        let out := scanTplList nodes fuel (i + 1) (tempDoc ++ [n]) docs
        (out.1, out.2 + 1)

/-- `#hydrateTplChildren`'s scan: one template's nodes, self anchors
included. -/
def scanTpl (nodes : List DNode) :
    Nat → Nat → List DNode → List (List DNode) × Nat
  | 0, _, _ => ([], 0)
  | fuel + 1, i, tempDoc =>
    match nodes[i]? with
    | none => ([], 0)
    | some n =>
      if isSelfEndComment n then ([tempDoc ++ [n]], 1)
      else
        let out := scanTpl nodes fuel (i + 1) (tempDoc ++ [n])
        (out.1, out.2 + 1)

mutual

/-- `Template.hydrate(childNodes)`: record the outer self anchors, walk the
existing nodes binding fixers, then run the mounting fixer map. -/
def hydrateTpl : Nat → List (String × HInterp) → List DNode → List Mut
  | 0, _, _ => []
  | fuel + 1, env, childNodes =>
    (hydrateNodes fuel env childNodes (some childNodes.length) 0).1
      ++ runFixes fuel env (hydrateNodes fuel env childNodes (some childNodes.length) 0).2
termination_by structural fuel => fuel

/-- `#hydrateNodes` from index `i`; `topLen = some len` on the `hydrate`
entry list, whose first and last nodes (the template's own self anchors)
are skipped by identity. -/
def hydrateNodes : Nat → List (String × HInterp) → List DNode → Option Nat →
    Nat → List Mut × List HFix
  | 0, _, _, _, _ => ([], [])
  | fuel + 1, env, nodes, topLen, i =>
    match nodes[i]? with
    | none => ([], [])
    | some n =>
      if atTopAnchor topLen i then
        hydrateNodes fuel env nodes topLen (i + 1)
      else
        match n with
        | .elem _ attrs children =>
          let a := if attrs.isEmpty then ([], [])
            else parseAttrs env true attrs.length 0 attrs
          let sub := if children.isEmpty then ([], [])
            else hydrateNodes fuel env children none 0
          let rest := hydrateNodes fuel env nodes topLen (i + 1)
          (a.1 ++ sub.1 ++ rest.1, a.2 ++ sub.2 ++ rest.2)
        | .text _ => hydrateNodes fuel env nodes topLen (i + 1)
        | .comment k =>
          match k with
          | .listStart _ dId =>
            let sc := scanTplList nodes nodes.length (i + 1) [] []
            let rest := hydrateNodes fuel env nodes topLen (i + 1 + sc.2)
            (rest.1, HFix.childrenFix (specStrOpt dId) (some sc.1) :: rest.2)
          | .textStart _ dId =>
            match nodes[i + 1]?, nodes[i + 2]?, nodes[i + 3]? with
            | some n1, some n2, some n3 =>
              if isTextDNode n1 && isTextEndComment n2 && isChildrenMark n3 then
                let rest := hydrateNodes fuel env nodes topLen (i + 1 + 3)
                (rest.1, HFix.childrenFix (specStr dId) none :: rest.2)
              else hydrateNodes fuel env nodes topLen (i + 1)
            | _, _, _ => hydrateNodes fuel env nodes topLen (i + 1)
          | .selfStart _ (some dId) =>
            let sc := scanTpl nodes nodes.length i []
            let rest := hydrateNodes fuel env nodes topLen (i + 1 + sc.2)
            (rest.1, HFix.childrenFix (specStr dId) (some sc.1) :: rest.2)
          | _ => hydrateNodes fuel env nodes topLen (i + 1)
termination_by structural fuel => fuel

/-- Running the mounting fixer map after the walk, in binding order. -/
def runFixes : Nat → List (String × HInterp) → List HFix → List Mut
  | 0, _, _ => []
  | _ + 1, _, [] => []
  | fuel + 1, env, f :: rest =>
    (match f with
      | .consts ms => ms
      | .childrenFix spec docs => childrenFixerRun fuel true env spec docs)
      ++ runFixes fuel env rest
termination_by structural fuel => fuel

/-- The mounting-phase run of `#childrenFixer` for a binding whose recorded
`dynamicNode` is a text node (the fresh empty text node for template and
list bindings, the located server text node for a dynamic text binding),
with `oldValue = null`.  `hyd` is `this.#isHydrating`; the `hyd = false`
emissions are the node mutations the non-hydrating run would perform. -/
def childrenFixerRun : Nat → Bool → List (String × HInterp) → String →
    Option (List (List DNode)) → List Mut
  | 0, _, _, _, _ => []
  | fuel + 1, hyd, env, spec, docs =>
    let value : Option HVal :=
      match env.lookup spec with
      | some (.func v) => some v
      | some (.tplv m) => some (.tplv m)
      | none => none
    match value with
    | some (.listv ms) =>
      (if hyd then [] else [Mut.removeNode])
        ++ (if hyd then
              ((ms.zip (docs.getD [])).map
                (fun p => hydrateTpl fuel p.1 p.2)).flatten
            else ms.map (fun _ => Mut.insertNode))
    | some (.tplv m) =>
      (if hyd then [] else [Mut.removeNode])
        ++ (if hyd then
              match docs with
              | some (d :: _) => hydrateTpl fuel m d
              | _ => []
            else [Mut.insertNode])
    | some (.scalar _) =>
      (if hyd then [] else [Mut.removeNode])
        ++ (if hyd then [] else [Mut.insertNode])
    | none =>
      (if hyd then [] else [Mut.removeNode])
        ++ (if hyd then [] else [Mut.insertNode])
termination_by structural fuel => fuel

end

/-- An attribute-family fixer whose hydration-phase run emits only safe
mutations (children fixers are handled by the mutual induction). -/
def HFixSafe : HFix → Prop
  | .consts ms => ∀ m ∈ ms, Mut.hydrationSafe m = true
  | .childrenFix _ _ => True

theorem hydrationSafe_not_nodeOp (m : Mut) (h : Mut.hydrationSafe m = true) :
    Mut.isNodeOp m = false := by
  cases m <;> simp_all [Mut.hydrationSafe, Mut.isNodeOp]

theorem parseAttrOne_safe (env : List (String × HInterp)) (name : String)
    (segs : List AttrSeg) :
    (∀ m ∈ (parseAttrOne env true name segs).1, Mut.hydrationSafe m = true) ∧
    (∀ f ∈ (parseAttrOne env true name segs).2.1, HFixSafe f) := by
  constructor <;>
  · intro x hx
    simp only [parseAttrOne] at hx
    repeat' split at hx
    all_goals simp_all [HFixSafe, Mut.hydrationSafe]
    all_goals
      rcases hx with hx | hx
    all_goals simp_all [HFixSafe, Mut.hydrationSafe]

theorem parseAttrs_safe (env : List (String × HInterp)) :
    ∀ (fuel i : Nat) (attrs : List (String × List AttrSeg)),
    (∀ m ∈ (parseAttrs env true fuel i attrs).1, Mut.hydrationSafe m = true) ∧
    (∀ f ∈ (parseAttrs env true fuel i attrs).2, HFixSafe f) := by
  intro fuel
  induction fuel with
  | zero => intro i attrs; simp [parseAttrs]
  | succ fuel ih =>
    intro i attrs
    simp only [parseAttrs]
    match hcur : attrs[i]? with
    | none => simp
    | some (name, segs) =>
      constructor
      · intro m hm
        simp only [List.mem_append] at hm
        rcases hm with hm | hm
        · exact (parseAttrOne_safe env name segs).1 m hm
        · exact (ih (i + 1) _).1 m hm
      · intro f hf
        simp only [List.mem_append] at hf
        rcases hf with hf | hf
        · exact (parseAttrOne_safe env name segs).2 f hf
        · exact (ih (i + 1) _).2 f hf

theorem hydrate_safe_all : ∀ fuel : Nat,
    (∀ env nodes, ∀ m ∈ hydrateTpl fuel env nodes,
      Mut.hydrationSafe m = true) ∧
    (∀ env nodes topLen i,
      (∀ m ∈ (hydrateNodes fuel env nodes topLen i).1,
        Mut.hydrationSafe m = true) ∧
      (∀ f ∈ (hydrateNodes fuel env nodes topLen i).2, HFixSafe f)) ∧
    (∀ env fixes, (∀ f ∈ fixes, HFixSafe f) →
      ∀ m ∈ runFixes fuel env fixes, Mut.hydrationSafe m = true) ∧
    (∀ env spec docs, ∀ m ∈ childrenFixerRun fuel true env spec docs,
      Mut.hydrationSafe m = true) := by
  intro fuel
  induction fuel with
  | zero => simp [hydrateTpl, hydrateNodes, runFixes, childrenFixerRun]
  | succ fuel ih =>
    obtain ⟨ih1, ih2, ih3, ih4⟩ := ih
    refine ⟨?_, ?_, ?_, ?_⟩
    · intro env nodes m hm
      simp only [hydrateTpl, List.mem_append] at hm
      rcases hm with hm | hm
      · exact (ih2 env nodes (some nodes.length) 0).1 m hm
      · exact ih3 env _ (ih2 env nodes (some nodes.length) 0).2 m hm
    · intro env nodes topLen i
      simp only [hydrateNodes]
      match hcur : nodes[i]? with
      | none => simp
      | some n =>
        by_cases htop : atTopAnchor topLen i = true
        · simpa [htop] using ih2 env nodes topLen (i + 1)
        · simp only [htop, if_false, Bool.false_eq_true]
          match n with
          | .elem tag attrs children =>
            constructor
            · intro m hm
              simp only [List.mem_append] at hm
              rcases hm with (hm | hm) | hm
              · by_cases he : attrs.isEmpty <;> simp [he] at hm
                exact (parseAttrs_safe env attrs.length 0 attrs).1 m hm
              · by_cases he : children.isEmpty <;> simp [he] at hm
                exact (ih2 env children none 0).1 m hm
              · exact (ih2 env nodes topLen (i + 1)).1 m hm
            · intro f hf
              simp only [List.mem_append] at hf
              rcases hf with (hf | hf) | hf
              · by_cases he : attrs.isEmpty <;> simp [he] at hf
                exact (parseAttrs_safe env attrs.length 0 attrs).2 f hf
              · by_cases he : children.isEmpty <;> simp [he] at hf
                exact (ih2 env children none 0).2 f hf
              · exact (ih2 env nodes topLen (i + 1)).2 f hf
          | .text s => exact ih2 env nodes topLen (i + 1)
          | .comment (.listStart a b) =>
            refine ⟨(ih2 env nodes topLen _).1, ?_⟩
            intro f hf
            rcases List.mem_cons.1 hf with hf | hf
            · subst hf; trivial
            · exact (ih2 env nodes topLen _).2 f hf
          | .comment (.textStart a b) =>
            match h1 : nodes[i + 1]?, h2 : nodes[i + 2]?, h3 : nodes[i + 3]? with
            | some n1, some n2, some n3 =>
              by_cases hok :
                  (isTextDNode n1 && isTextEndComment n2 && isChildrenMark n3) = true
              · simp only [hok, if_true]
                refine ⟨(ih2 env nodes topLen _).1, ?_⟩
                intro f hf
                rcases List.mem_cons.1 hf with hf | hf
                · subst hf; trivial
                · exact (ih2 env nodes topLen _).2 f hf
              · simp only [hok, Bool.false_eq_true, if_false]
                exact ih2 env nodes topLen (i + 1)
            | none, _, _ => exact ih2 env nodes topLen (i + 1)
            | some _, none, _ => exact ih2 env nodes topLen (i + 1)
            | some _, some _, none => exact ih2 env nodes topLen (i + 1)
          | .comment (.selfStart a (some dId)) =>
            refine ⟨(ih2 env nodes topLen _).1, ?_⟩
            intro f hf
            rcases List.mem_cons.1 hf with hf | hf
            · subst hf; trivial
            · exact (ih2 env nodes topLen _).2 f hf
          | .comment (.selfStart a none) => exact ih2 env nodes topLen (i + 1)
          | .comment (.selfEnd a b) => exact ih2 env nodes topLen (i + 1)
          | .comment (.listEnd a b) => exact ih2 env nodes topLen (i + 1)
          | .comment (.textEnd a b) => exact ih2 env nodes topLen (i + 1)
          | .comment .childrenMark => exact ih2 env nodes topLen (i + 1)
          | .comment (.other s) => exact ih2 env nodes topLen (i + 1)
    · intro env fixes hsafe m hm
      match fixes with
      | [] => simp [runFixes] at hm
      | f :: rest =>
        simp only [runFixes, List.mem_append] at hm
        rcases hm with hm | hm
        · match f with
          | .consts ms =>
            exact hsafe (.consts ms) (List.mem_cons_self _ _) m hm
          | .childrenFix spec docs =>
            exact ih4 env spec docs m hm
        · exact ih3 env rest (fun g hg => hsafe g (List.mem_cons_of_mem _ hg)) m hm
    · intro env spec docs m hm
      simp only [childrenFixerRun] at hm
      split at hm
      · simp only [if_true, List.nil_append, List.mem_flatten, List.mem_map] at hm
        obtain ⟨l, ⟨p, hp, hl⟩, hml⟩ := hm
        subst hl
        exact ih1 p.1 p.2 m hml
      · simp only [if_true, List.nil_append] at hm
        split at hm
        · exact ih1 _ _ m hm
        · simp at hm
      · simp at hm
      · simp at hm

/-- C9 (hydration frame property): for every server-rendered node list and
getter map, `Template.hydrate` — the walk that binds fixers to the existing
nodes followed by the run of the mounting fixer map, including the
hydration-mode children fixers that recursively hydrate nested template and
list bindings — never emits a node insertion, removal or move, and never a
`setAttribute`: every mutation it performs is an attribute removal (the
binding-pattern attributes), a property set, a listener attach/detach, or a
user-function call.  The node sequence under the hydrated root is therefore
unchanged apart from binding-pattern attribute removal. -/
theorem C9_hydration_frame (fuel : Nat) (env : List (String × HInterp))
    (childNodes : List DNode) (m : Mut)
    (hm : m ∈ hydrateTpl fuel env childNodes) :
    Mut.isNodeOp m = false ∧ Mut.hydrationSafe m = true := by
  have hs := (hydrate_safe_all fuel).1 env childNodes m hm
  exact ⟨hydrationSafe_not_nodeOp m hs, hs⟩

/-- Witness: a concrete hydration — a template whose root nodes are its two
self anchors around a button with an `@click` event binding — emits the
`removeListener`/`addListener`/`removeAttr` triple, and each of these is a
non-node mutation by the theorem. -/
theorem C9_hydration_frame_witness :
    Mut.isNodeOp (Mut.removeAttr "@click") = false ∧
      Mut.hydrationSafe (Mut.removeAttr "@click") = true :=
  C9_hydration_frame 3
    [("$$--dynamic0--$$", HInterp.func (HVal.scalar "x"))]
    [DNode.comment (CommentKind.selfStart 0 none),
      DNode.elem "button" [("@click", [AttrSeg.spec 0])] [],
      DNode.comment (CommentKind.selfEnd 0 none)]
    (Mut.removeAttr "@click") (by decide)

end SRay
